import Mathlib

/-!
Verification of the SarOSx64 kernel's process/memory subsystem against its
natural-language specification.  The definitions below are shallow embeddings
of the Rust sources (`src/mm/vmm.rs`, `src/mm/pmm.rs`, `src/proc.rs`,
`src/proc/fork.rs`, `src/proc/elf.rs`, `src/syscall.rs`): machine integers
become `Nat` with explicit `% 2^64` where wrap-around matters, physical
memory becomes explicit state records, and fallible operations return
`Option`/`Except`.
-/

namespace SarOS

/-! ## Bit-level helpers (u64 arithmetic as `Nat` with explicit masks) -/

/-- 2^64, the modulus of `u64` arithmetic. -/
def U64MOD : Nat := 18446744073709551616

def PAGE_SIZE : Nat := 4096

/-- `align_down(val, align)` from `src/mm/pmm.rs`: `val & !(align - 1)`.
For the page case `align = 4096` the complement mask of `!(align-1)`
restricted to 64 bits is `2^64 - 4096`. -/
def alignDown4k (v : Nat) : Nat := v &&& (U64MOD - 4096)

/-- `align_up(val, align)` from `src/mm/pmm.rs`: `(val + align - 1) & !(align - 1)`,
computed in wrapping u64 arithmetic (release-mode `+`). -/
def alignUp4k (v : Nat) : Nat := ((v + 4095) % U64MOD) &&& (U64MOD - 4096)

/-- `bitflags` containment test: `flags.contains(m)` is `flags & m == m`. -/
def hasFlag (f m : Nat) : Bool := f &&& m == m

/-! ## VMA flags and the `VmSpace` (`src/mm/vmm.rs`) -/

def VMA_READ : Nat := 1
def VMA_WRITE : Nat := 2
def VMA_EXEC : Nat := 4
def VMA_SHARED : Nat := 8
def VMA_COPY_ON_WRITE : Nat := 16
def VMA_ANONYMOUS : Nat := 32
def VMA_GROWS_DOWN : Nat := 64

/-- `VmaEntry { start, end, flags }` (the `end` field is named `stop` here
because `end` is reserved in Lean). -/
structure VmaEntry where
  start : Nat
  stop : Nat
  flags : Nat
  deriving Repr, DecidableEq

/-- `VmaEntry::contains`: `addr >= self.start && addr < self.end`. -/
def VmaEntry.containsAddr (a : VmaEntry) (addr : Nat) : Bool :=
  a.start ≤ addr && addr < a.stop

/-- `VmSpace { areas, brk }`. -/
structure VmSpace where
  areas : List VmaEntry
  brk : Nat
  deriving Repr

/-- `VmSpace::new()`: empty area list, `brk = 0x1000_0000`. -/
def VmSpace.new : VmSpace := { areas := [], brk := 0x10000000 }

/-- `VmSpace::find_vma`: first area containing `addr`. -/
def VmSpace.findVma (s : VmSpace) (addr : Nat) : Option VmaEntry :=
  s.areas.find? (fun a => a.containsAddr addr)

/-- `VmSpace::add_vma`: push the new entry, then
`sort_unstable_by_key(|a| a.start)`. -/
def vmaLe (a b : VmaEntry) : Bool := Nat.ble a.start b.start

def VmSpace.addVma (s : VmSpace) (start stop flags : Nat) : VmSpace :=
  { areas := (s.areas ++ [VmaEntry.mk start stop flags]).mergeSort vmaLe,
    brk := s.brk }

/-- `VmSpace::remove_vma`: `retain(|a| !(a.start >= start && a.end <= end))`. -/
def VmSpace.removeVma (s : VmSpace) (start stop : Nat) : VmSpace :=
  { s with areas :=
      s.areas.filter (fun a => !(start ≤ a.start && a.stop ≤ stop)) }

/-- The two `VmSpace` mutators named by the claim, as an operation type. -/
inductive VmaOp where
  | add (start stop flags : Nat)
  | remove (start stop : Nat)
  deriving Repr

def VmSpace.applyOp (s : VmSpace) : VmaOp → VmSpace
  | .add a b f => s.addVma a b f
  | .remove a b => s.removeVma a b

def VmSpace.applyOps (s : VmSpace) (ops : List VmaOp) : VmSpace :=
  ops.foldl VmSpace.applyOp s

/-- Sorted by `start` (non-decreasing), as the spec states it. -/
def VmaSorted (l : List VmaEntry) : Prop :=
  l.Pairwise (fun a b => a.start ≤ b.start)

/-- Pairwise disjoint half-open intervals, as the spec states it. -/
def VmaDisjoint (l : List VmaEntry) : Prop :=
  l.Pairwise (fun a b => a.stop ≤ b.start ∨ b.stop ≤ a.start)

lemma vmaLe_trans (a b c : VmaEntry) (hab : vmaLe a b = true) (hbc : vmaLe b c = true) :
    vmaLe a c = true := by
  simp only [vmaLe, Nat.ble_eq] at *; omega

lemma vmaLe_total (a b : VmaEntry) : (vmaLe a b || vmaLe b a) = true := by
  simp only [vmaLe, Nat.ble_eq]
  rcases Nat.le_total a.start b.start with h | h <;> simp [h]

/-- `mergeSort` with `vmaLe` produces a list sorted by `start`. -/
lemma sorted_mergeSort_vma (l : List VmaEntry) : VmaSorted (l.mergeSort vmaLe) := by
  have h := List.sorted_mergeSort vmaLe_trans vmaLe_total l
  exact h.imp (by simp [vmaLe])

lemma vmaSorted_addVma (s : VmSpace) (a b f : Nat) :
    VmaSorted (s.addVma a b f).areas := by
  simpa [VmSpace.addVma] using sorted_mergeSort_vma (s.areas ++ [VmaEntry.mk a b f])

lemma vmaSorted_removeVma (s : VmSpace) (a b : Nat) (h : VmaSorted s.areas) :
    VmaSorted (s.removeVma a b).areas := by
  exact List.Pairwise.sublist (List.filter_sublist _) h

lemma vmaSorted_applyOps (s : VmSpace) (ops : List VmaOp) (h : VmaSorted s.areas) :
    VmaSorted (s.applyOps ops).areas := by
  induction ops generalizing s with
  | nil => exact h
  | cons op rest ih =>
    cases op with
    | add a b f => exact ih _ (vmaSorted_addVma s a b f)
    | remove a b => exact ih _ (vmaSorted_removeVma s a b h)

lemma disjoint_symm : ∀ {x y : VmaEntry},
    (x.stop ≤ y.start ∨ y.stop ≤ x.start) → (y.stop ≤ x.start ∨ x.stop ≤ y.start) :=
  fun h => h.symm

/-- C9 counterexample: two overlapping `add_vma` calls leave overlapping VMAs
in the `VmSpace` — `add_vma` performs no overlap check, so the claimed
pairwise-disjointness invariant fails. -/
theorem c9_disjointness_counterexample :
    ¬ VmaDisjoint
        ((VmSpace.new.applyOps
          [VmaOp.add 0x1000 0x3000 3, VmaOp.add 0x2000 0x4000 3]).areas) := by
  intro h
  have hperm1 : (VmSpace.new.applyOps
      [VmaOp.add 0x1000 0x3000 3, VmaOp.add 0x2000 0x4000 3]).areas.Perm
      (([] ++ [VmaEntry.mk 0x1000 0x3000 3]).mergeSort vmaLe ++
        [VmaEntry.mk 0x2000 0x4000 3]) := by
    simpa [VmSpace.applyOps, VmSpace.applyOp, VmSpace.addVma, VmSpace.new] using
      List.mergeSort_perm _ vmaLe
  have hperm2 : (([] ++ [VmaEntry.mk 0x1000 0x3000 3]).mergeSort vmaLe ++
      [VmaEntry.mk 0x2000 0x4000 3]).Perm
      ([VmaEntry.mk 0x1000 0x3000 3] ++ [VmaEntry.mk 0x2000 0x4000 3]) :=
    (List.mergeSort_perm _ vmaLe).append_right _
  have h2 := (h.perm (hperm1.trans hperm2) disjoint_symm)
  have := List.rel_of_pairwise_cons h2 (List.mem_singleton.mpr rfl)
  simp at this

/-- C9 amended: after any sequence of `add_vma`/`remove_vma` operations on a
fresh `VmSpace`, the VMA list is sorted by `start` (pairwise disjointness does
NOT hold in general, see the counterexample). -/
theorem c9_vmas_sorted (ops : List VmaOp) :
    VmaSorted ((VmSpace.new.applyOps ops).areas) :=
  vmaSorted_applyOps _ _ (by simp [VmSpace.new, VmaSorted])

/-! ## Syscall errno values (`src/syscall.rs`, module `errno`) -/

def ENOSYS : Int := 38
def EINVAL : Int := 22
def EBADF : Int := 9
def ENOMEM : Int := 12
def EFAULT : Int := 14
def EAGAIN : Int := 11
def EPERM : Int := 1
def ECHILD : Int := 10
def ESRCH : Int := 3

/-! ## File syscalls (`src/syscall.rs`, module `fs`)

The state visible to `sys_read`/`sys_write`: whether a current process
exists, its `AddressSpace::translate`, the physical byte memory reached
through the HHDM alias, and the keyboard buffer head (`read_char`). -/

structure SysState where
  hasCurrent : Bool
  translate : Nat → Option Nat
  mem : Nat → Nat
  kb : Option Nat

/-- The chunked copy loop inside `sys_write` (fd 1/2): translate each chunk
start, read up to `min(remaining, page_remaining, 256)` bytes through the
HHDM alias and emit them to serial/console.  Returns (success, emitted
bytes); `false` models the `-EFAULT` early return on a failed translation. -/
def writeLoop (tr : Nat → Option Nat) (mem : Nat → Nat) (addr remaining : Nat) :
    Bool × List Nat :=
  if h : remaining = 0 then (true, [])
  else
    match tr addr with
    | none => (false, [])
    | some phys =>
      let toCopy := min (min remaining (PAGE_SIZE - addr % PAGE_SIZE)) 256
      let out := (List.range toCopy).map (fun i => mem (phys + i))
      let rest := writeLoop tr mem (addr + toCopy) (remaining - toCopy)
      (rest.1, out ++ rest.2)
  termination_by remaining
  decreasing_by
    have h1 : addr % PAGE_SIZE < PAGE_SIZE := Nat.mod_lt _ (by simp [PAGE_SIZE])
    simp only [PAGE_SIZE] at *
    omega

/-- `fs::sys_write` from `src/syscall.rs`: `count == 0 → 0`; null buffer →
`-EFAULT`; fd 1/2 → chunked translate-and-copy (no current process →
`-EFAULT`); other fds → `-EBADF`.  Returns (result, bytes emitted). -/
def sysWrite (st : SysState) (fd : Int) (buf count : Nat) : Int × List Nat :=
  if count = 0 then (0, [])
  else if buf = 0 then (-EFAULT, [])
  else if fd = 1 ∨ fd = 2 then
    if st.hasCurrent then
      let r := writeLoop st.translate st.mem buf count
      if r.1 then ((count : Int), r.2) else (-EFAULT, r.2)
    else (-EFAULT, [])
  else (-EBADF, [])

/-- `fs::copy_to_user` from `src/syscall.rs`: page-by-page translate and
write through the HHDM alias; fails on address-arithmetic overflow or a
missing translation.  Returns (success, updated physical memory). -/
def copyToUserLoop (tr : Nat → Option Nat) (ptr : Nat) (data : List Nat)
    (copied : Nat) (mem : Nat → Nat) : Bool × (Nat → Nat) :=
  if h : data.length ≤ copied then (true, mem)
  else if ptr + copied ≥ U64MOD then (false, mem)
  else
    match tr (ptr + copied) with
    | none => (false, mem)
    | some phys =>
      let toCopy := min (data.length - copied) (PAGE_SIZE - (ptr + copied) % PAGE_SIZE)
      let mem' := fun a => if phys ≤ a ∧ a < phys + toCopy
        then data.getD (copied + (a - phys)) 0 else mem a
      copyToUserLoop tr ptr data (copied + toCopy) mem'
  termination_by data.length - copied
  decreasing_by
    have h1 : (ptr + copied) % PAGE_SIZE < PAGE_SIZE := Nat.mod_lt _ (by simp [PAGE_SIZE])
    simp only [PAGE_SIZE] at *
    omega

/-- `fs::sys_read` from `src/syscall.rs`: `count == 0 → 0`; null buffer →
`-EFAULT`; fd 0 → one byte from the keyboard (empty buffer → `-EAGAIN`,
failed `copy_to_user` → `-EFAULT`); other fds → `-EBADF`.
Returns (result, physical memory after the write). -/
def sysRead (st : SysState) (fd : Int) (buf count : Nat) : Int × (Nat → Nat) :=
  if count = 0 then (0, st.mem)
  else if buf = 0 then (-EFAULT, st.mem)
  else if fd = 0 then
    match st.kb with
    | some c =>
      if st.hasCurrent then
        let r := copyToUserLoop st.translate buf [c] 0 st.mem
        if r.1 then (1, r.2) else (-EFAULT, r.2)
      else (-EFAULT, st.mem)
    | none => (-EAGAIN, st.mem)
  else (-EBADF, st.mem)

lemma writeLoop_start_none (tr : Nat → Option Nat) (mem : Nat → Nat) (addr n : Nat)
    (h : n ≠ 0) (ht : tr addr = none) : writeLoop tr mem addr n = (false, []) := by
  unfold writeLoop
  simp [h, ht]

lemma writeLoop_total (tr : Nat → Option Nat) (mem : Nat → Nat)
    (h : ∀ a, (tr a).isSome) : ∀ n addr, (writeLoop tr mem addr n).1 = true := by
  intro n
  induction n using Nat.strong_induction_on with
  | _ n ih =>
    intro addr
    unfold writeLoop
    split
    · rfl
    · obtain ⟨p, hp⟩ := Option.isSome_iff_exists.mp (h addr)
      rw [hp]
      simp only
      apply ih
      have h1 : addr % PAGE_SIZE < PAGE_SIZE := Nat.mod_lt _ (by simp [PAGE_SIZE])
      simp only [PAGE_SIZE] at *
      omega

lemma writeLoop_single_chunk (tr : Nat → Option Nat) (mem : Nat → Nat)
    (addr n phys : Nat) (hn : n ≠ 0) (h256 : n ≤ 256)
    (hpg : n ≤ PAGE_SIZE - addr % PAGE_SIZE) (ht : tr addr = some phys) :
    writeLoop tr mem addr n = (true, (List.range n).map (fun i => mem (phys + i))) := by
  unfold writeLoop
  rw [dif_neg hn, ht]
  simp only
  have hmin : min (min n (PAGE_SIZE - addr % PAGE_SIZE)) 256 = n := by omega
  rw [hmin, Nat.sub_self]
  unfold writeLoop
  simp

/-- C10 counterexample: with `count = 0`, `sys_read`/`sys_write` return 0
before any other check — not `-EFAULT` as claimed. -/
theorem c10_zero_count_counterexample :
    (sysRead (SysState.mk true (fun _ => none) (fun _ => 0) none) 0 0x1000 0).1 = 0 ∧
    (sysWrite (SysState.mk true (fun _ => none) (fun _ => 0) none) 1 0x1000 0).1 = 0 ∧
    (0 : Int) ≠ -EFAULT := by
  refine ⟨rfl, rfl, by decide⟩

/-- C10 amended: `sys_read`/`sys_write` return 0 when `count = 0` (this check
precedes all others), and return `-EFAULT` when the buffer is null and
`count ≠ 0`; the null-buffer check precedes the fd check, so a null buffer
with nonzero count yields `-EFAULT` on every fd, never `-EBADF`, `-EAGAIN`
or a byte count. -/
theorem c10_zero_and_null_checks (st : SysState) (fd : Int) (buf count : Nat) :
    (count = 0 → (sysWrite st fd buf count).1 = 0 ∧ (sysRead st fd buf count).1 = 0) ∧
    (count ≠ 0 → buf = 0 →
      (sysWrite st fd buf count).1 = -EFAULT ∧ (sysRead st fd buf count).1 = -EFAULT) := by
  constructor
  · intro h
    simp [sysWrite, sysRead, h]
  · intro h hb
    simp [sysWrite, sysRead, h, hb]

theorem c10_zero_and_null_checks_witness :
    ((sysWrite (SysState.mk true (fun _ => none) (fun _ => 0) none) 7 9 0).1 = 0 ∧
      (sysRead (SysState.mk true (fun _ => none) (fun _ => 0) none) 7 9 0).1 = 0) ∧
    ((sysWrite (SysState.mk true (fun _ => none) (fun _ => 0) none) 7 0 3).1 = -EFAULT ∧
      (sysRead (SysState.mk true (fun _ => none) (fun _ => 0) none) 7 0 3).1 = -EFAULT) :=
  ⟨(c10_zero_and_null_checks _ 7 9 0).1 rfl,
   (c10_zero_and_null_checks _ 7 0 3).2 (by decide) rfl⟩

lemma copyToUserLoop_byte_fail (tr : Nat → Option Nat) (ptr c : Nat) (mem : Nat → Nat)
    (ht : tr ptr = none) : copyToUserLoop tr ptr [c] 0 mem = (false, mem) := by
  unfold copyToUserLoop
  by_cases hov : ptr + 0 ≥ U64MOD <;> simp [hov, ht]

lemma copyToUserLoop_byte_ok (tr : Nat → Option Nat) (ptr c : Nat) (mem : Nat → Nat)
    (phys : Nat) (ht : tr ptr = some phys) (hbuf : ptr < U64MOD) :
    (copyToUserLoop tr ptr [c] 0 mem).1 = true ∧
    (copyToUserLoop tr ptr [c] 0 mem).2 phys = c := by
  have hov : ¬ (ptr + 0 ≥ U64MOD) := by omega
  have hmod : (ptr + 0) % PAGE_SIZE < PAGE_SIZE := Nat.mod_lt _ (by simp [PAGE_SIZE])
  have hpg1 : min ([c].length - 0) (PAGE_SIZE - (ptr + 0) % PAGE_SIZE) = 1 := by
    simp only [List.length_singleton]
    omega
  unfold copyToUserLoop
  rw [dif_neg (by simp)]
  simp only [hov, ite_false, if_neg (by omega : ¬ U64MOD ≤ ptr + 0), ht]
  rw [hpg1]
  unfold copyToUserLoop
  simp [ht]

/-- C2: `sys_write` (fd 1/2) and `sys_read` (fd 0) translate the user buffer
address through the current address space and access the bytes through the
HHDM alias; an unmapped address makes the syscall return `-EFAULT`; with the
buffer mapped, `sys_write` emits the bytes read at the translated physical
address and returns `count`, and `sys_read` stores the keyboard byte at the
translated physical address and returns 1. -/
theorem c2_user_pointer_translation (st : SysState) (fd : Int) (buf count c phys : Nat)
    (hb : buf ≠ 0) (hc : count ≠ 0) (hcur : st.hasCurrent = true)
    (hfd : fd = 1 ∨ fd = 2) :
    (st.translate buf = none → (sysWrite st fd buf count).1 = -EFAULT) ∧
    ((∀ a, (st.translate a).isSome) → (sysWrite st fd buf count).1 = (count : Int)) ∧
    (st.translate buf = some phys → count ≤ 256 → count ≤ PAGE_SIZE - buf % PAGE_SIZE →
      sysWrite st fd buf count =
        ((count : Int), (List.range count).map (fun i => st.mem (phys + i)))) ∧
    (st.kb = some c →
      (st.translate buf = none → (sysRead st 0 buf count).1 = -EFAULT) ∧
      (st.translate buf = some phys → buf < U64MOD →
        (sysRead st 0 buf count).1 = 1 ∧ (sysRead st 0 buf count).2 phys = c)) := by
  refine ⟨?_, ?_, ?_, ?_⟩
  · intro ht
    simp [sysWrite, hc, hb, hfd, hcur, writeLoop_start_none st.translate st.mem buf count hc ht]
  · intro ht
    simp [sysWrite, hc, hb, hfd, hcur, writeLoop_total st.translate st.mem ht count buf]
  · intro ht h256 hpg
    simp [sysWrite, hc, hb, hfd, hcur,
      writeLoop_single_chunk st.translate st.mem buf count phys hc h256 hpg ht]
  · intro hk
    constructor
    · intro ht
      simp [sysRead, hc, hb, hk, hcur, copyToUserLoop_byte_fail st.translate buf c st.mem ht]
    · intro ht hbuf
      simp [sysRead, hc, hb, hk, hcur,
        copyToUserLoop_byte_ok st.translate buf c st.mem phys ht hbuf]

theorem c2_user_pointer_translation_witness :
    (sysWrite (SysState.mk true (fun _ => none) (fun _ => 0) none) 1 0x2000 4).1 = -EFAULT ∧
    (sysRead (SysState.mk true (fun a => some (a + 0x100)) (fun _ => 0) (some 65)) 0
        0x2000 1).1 = 1 :=
  ⟨(c2_user_pointer_translation _ 1 0x2000 4 65 0 (by decide) (by decide) rfl
      (Or.inl rfl)).1 rfl,
   ((((c2_user_pointer_translation (SysState.mk true (fun a => some (a + 0x100))
      (fun _ => 0) (some 65)) 1 0x2000 1 65 0x2100 (by decide) (by decide)
      rfl (Or.inl rfl)).2.2.2 rfl).2 rfl (by decide)).1)⟩

/-! ## Process model (`src/proc.rs`, `src/proc/fork.rs`)

A `Process` keeps the fields the claims are about; `RunQueue` holds the
queued processes and the optional current process (which is never in the
queue — the scheduler removes it on pick and re-inserts it on switch). -/

inductive PState where
  | Running
  | Runnable
  | Sleeping
  | Zombie
  | Dead
  deriving Repr, DecidableEq

structure Proc where
  pid : Nat
  ppid : Nat
  state : PState
  priority : Nat
  timeSlice : Nat
  baseSlice : Nat
  exitCode : Int
  deriving Repr, DecidableEq

structure RQ where
  queue : List Proc
  current : Option Proc
  deriving Repr, DecidableEq

/-- `pid as u32` / `target as u32`: two's-complement cast of an `i32` value. -/
def u32OfI32 (t : Int) : Nat := (t % (2 ^ 32 : Int)).toNat

/-- `a0 as i32`: truncate a `u64` value to 32 bits, reinterpret signed. -/
def i32OfU64 (a : Nat) : Int :=
  if a % 2 ^ 32 < 2 ^ 31 then (a % 2 ^ 32 : Int) else (a % 2 ^ 32 : Int) - 2 ^ 32

/-- `wake_up(pid)` from `src/proc.rs`: scan the queue; the first process with
this pid in `Sleeping` state becomes `Runnable` and the scan stops. -/
def wakeUp : List Proc → Nat → List Proc
  | [], _ => []
  | p :: rest, pid =>
    if p.pid = pid ∧ p.state = .Sleeping then { p with state := .Runnable } :: rest
    else p :: wakeUp rest pid

/-- `terminate_current(exit_code)` from `src/proc.rs` (state effect; the
function itself never returns — it loops `schedule(); hlt()`): mark the
current process `Zombie`, record the exit code, wake its parent when
`ppid != 0`. -/
def terminateCurrent (rq : RQ) (code : Int) : RQ :=
  match rq.current with
  | none => rq
  | some cur =>
    { queue := if cur.ppid ≠ 0 then wakeUp rq.queue cur.ppid else rq.queue,
      current := some { cur with state := .Zombie, exitCode := code } }

/-- Outcome of a syscall handler: a returned value with the post-state, or
divergence (a handler of return type `!` that never returns). -/
inductive SysOutcome where
  | ret (r : Int) (rq : RQ)
  | diverged (rq : RQ)
  deriving DecidableEq

/-- The `SYS_EXIT | SYS_EXIT_GROUP` arm of `syscall_dispatch`
(`src/syscall.rs`): `terminate_current(a0 as i32)`, which never returns. -/
def exitArm (rq : RQ) (a0 : Nat) : SysOutcome :=
  .diverged (terminateCurrent rq (i32OfU64 a0))

/-- The index/priority accumulator of `RunQueue::pick_next`
(`iter().enumerate().filter(Runnable).min_by_key(priority)`; `min_by_key`
keeps the first of equally-minimal elements). -/
def pickIdxAux : List Proc → Nat → Option (Nat × Nat) → Option (Nat × Nat)
  | [], _, best => best
  | p :: rest, i, best =>
    let best' := if p.state = .Runnable then
        match best with
        | none => some (i, p.priority)
        | some (bi, bp) => if p.priority < bp then some (i, p.priority) else some (bi, bp)
      else best
    pickIdxAux rest (i + 1) best'

/-- `RunQueue::pick_next`: lowest-priority `Runnable` process (first on
ties), removed from the queue. -/
def pickNext (q : List Proc) : Option (Proc × List Proc) :=
  match pickIdxAux q 0 none with
  | none => none
  | some (i, _) =>
    match q.get? i with
    | none => none
    | some p => some (p, q.eraseIdx i)

/-- `schedule_impl` from `src/proc.rs`, queue effect only: a `Running`
outgoing process becomes `Runnable` with a replenished slice; it is re-queued
unless `Dead` (zombies stay queued for reaping); the picked process becomes
`Running` and `current`. -/
def scheduleStep (rq : RQ) : RQ :=
  let q1 := match rq.current with
    | none => rq.queue
    | some old =>
      let old' := if old.state = .Running
        then { old with state := .Runnable, timeSlice := old.baseSlice } else old
      if old'.state ≠ .Dead then rq.queue ++ [old'] else rq.queue
  match pickNext q1 with
  | some (p, rest) => { queue := rest, current := some { p with state := .Running } }
  | none => { queue := q1, current := none }

/-! ## `sys_kill` (`src/syscall.rs`) -/

/-- The result of the queue scan inside `sys_kill`: an early-returned errno,
the updated queue plus the target's parent pid, or no pid match. -/
inductive KillScan where
  | err (e : Int)
  | ok (q : List Proc) (parent : Nat)
  | notFound

/-- The `for proc in &rq.queue` loop of `sys_kill`: the first process whose
pid matches decides the outcome — kernel task (`ppid == 0`) or not a child
of the caller → `-EPERM`; already `Zombie`/`Dead` → `-ESRCH`; otherwise mark
it `Zombie` with exit code `128 + sig` and report its parent pid. -/
def killScan (pidT curPid : Nat) (sig : Int) : List Proc → KillScan
  | [] => .notFound
  | p :: rest =>
    if p.pid = pidT then
      if p.ppid = 0 then .err (-EPERM)
      else if p.ppid ≠ curPid then .err (-EPERM)
      else if p.state = .Zombie ∨ p.state = .Dead then .err (-ESRCH)
      else .ok ({ p with state := .Zombie, exitCode := 128 + sig } :: rest) p.ppid
    else
      match killScan pidT curPid sig rest with
      | .notFound => .notFound
      | .err e => .err e
      | .ok q par => .ok (p :: q) par

/-- `sys_kill(pid, sig)` from `src/syscall.rs`: only SIGKILL(9)/SIGTERM(15)
and `pid > 0` are accepted; killing yourself runs `terminate_current`
(divergence); otherwise the queue scan decides, and on success the target's
parent is woken and 0 is returned. -/
def sysKill (rq : RQ) (pid sig : Int) : SysOutcome :=
  if pid ≤ 0 ∨ (sig ≠ 9 ∧ sig ≠ 15) then .ret (-EINVAL) rq
  else
    match rq.current with
    | none => .ret (-ESRCH) rq
    | some cur =>
      if u32OfI32 pid = cur.pid then .diverged (terminateCurrent rq (128 + sig))
      else
        match killScan (u32OfI32 pid) cur.pid sig rq.queue with
        | .err e => .ret e rq
        | .notFound => .ret (-ESRCH) rq
        | .ok q' parent =>
          .ret 0 { queue := if parent ≠ 0 then wakeUp q' parent else q',
                   current := rq.current }

/-! ## `sys_waitpid` (`src/proc/fork.rs`) -/

/-- `find_zombie_child(target)`: the first queued `Zombie` child of the
current process whose pid matches `target` (`-1` matches any child). -/
def findZombieChild (rq : RQ) (target : Int) : Option (Nat × Int) :=
  match rq.current with
  | none => none
  | some cur =>
    match rq.queue.find? (fun p =>
        decide (p.ppid = cur.pid) &&
        (decide (target = -1) || decide (p.pid = u32OfI32 target)) &&
        decide (p.state = PState.Zombie)) with
    | some p => some (p.pid, p.exitCode)
    | none => none

/-- The status word: `((exit_code & 0xFF) as u32) << 8`. -/
def statusWord (ec : Int) : Nat := (ec % 256).toNat <<< 8

/-- One outcome of the `sys_waitpid` retry loop body. -/
inductive WaitRes where
  | found (pid : Nat) (rq : RQ) (mem : Nat → Nat)
  | ret0
  | sleepRetry

/-- One iteration of the `sys_waitpid` loop (`src/proc/fork.rs`): a zombie
child found → write the status word through `translate` + HHDM (skipped for
a null pointer or a failed translation), reap the child from the queue,
return its pid; none found → 0 under `WNOHANG`, else sleep and retry.
`mem` holds one 32-bit cell per physical address. -/
def waitpidStep (rq : RQ) (tr : Nat → Option Nat) (mem : Nat → Nat)
    (target : Int) (wstatusPtr : Nat) (options : Nat) : WaitRes :=
  match findZombieChild rq target with
  | some (cpid, ec) =>
    let mem' := if wstatusPtr ≠ 0 then
        match tr wstatusPtr with
        | some phys => fun a => if a = phys then statusWord ec else mem a
        | none => mem
      else mem
    .found cpid
      { queue := rq.queue.filter (fun p => p.pid ≠ cpid), current := rq.current } mem'
  | none => if options &&& 1 ≠ 0 then .ret0 else .sleepRetry

lemma wakeUp_wakes (q : List Proc) (pid : Nat)
    (h : ∃ p ∈ q, p.pid = pid ∧ p.state = .Sleeping) :
    ∃ p ∈ wakeUp q pid, p.pid = pid ∧ p.state = .Runnable := by
  induction q with
  | nil => simp at h
  | cons p rest ih =>
    by_cases hp : p.pid = pid ∧ p.state = .Sleeping
    · exact ⟨{ p with state := .Runnable }, by simp [wakeUp, hp], hp.1, rfl⟩
    · obtain ⟨w, hw, hwp⟩ := h
      rcases List.mem_cons.mp hw with hwp' | hw'
      · exact absurd (hwp' ▸ hwp) hp
      · obtain ⟨w', hw'1, hw'2⟩ := ih ⟨w, hw', hwp⟩
        exact ⟨w', by simp [wakeUp, hp, hw'1], hw'2⟩

lemma wakeUp_preserves (q : List Proc) (pid : Nat) (z : Proc)
    (hz : z ∈ q) (hs : z.state ≠ .Sleeping) : z ∈ wakeUp q pid := by
  induction q with
  | nil => simp at hz
  | cons p rest ih =>
    by_cases hp : p.pid = pid ∧ p.state = .Sleeping
    · rcases List.mem_cons.mp hz with hzp | hz'
      · exact absurd (hzp ▸ hp.2 : z.state = .Sleeping) hs
      · simp [wakeUp, hp, hz']
    · rcases List.mem_cons.mp hz with hzp | hz'
      · simp [wakeUp, hp, hzp]
      · simp [wakeUp, hp, ih hz']

lemma killScan_err (pidT curPid : Nat) (sig : Int) (q : List Proc) (e : Int)
    (h : killScan pidT curPid sig q = .err e) : e = -EPERM ∨ e = -ESRCH := by
  induction q with
  | nil => simp [killScan] at h
  | cons p rest ih =>
    by_cases hp : p.pid = pidT
    · by_cases h0 : p.ppid = 0
      · simp [killScan, hp, h0] at h
        exact Or.inl h.symm
      · by_cases hpar : p.ppid ≠ curPid
        · simp [killScan, hp, h0, hpar] at h
          exact Or.inl h.symm
        · by_cases hzd : p.state = .Zombie ∨ p.state = .Dead
          · simp [killScan, hp, h0, hpar, hzd] at h
            exact Or.inr h.symm
          · simp [killScan, hp, h0, hpar, hzd] at h
    · simp only [killScan, if_neg hp] at h
      cases hks : killScan pidT curPid sig rest with
      | err e' => rw [hks] at h; cases h; exact ih hks
      | ok q' par => rw [hks] at h; cases h
      | notFound => rw [hks] at h; cases h

lemma killScan_ok (pidT curPid : Nat) (sig : Int) (q : List Proc)
    (q' : List Proc) (par : Nat) (h : killScan pidT curPid sig q = .ok q' par) :
    par = curPid ∧ par ≠ 0 ∧
    ∃ p ∈ q, p.pid = pidT ∧ p.ppid = curPid ∧
      p.state ≠ .Zombie ∧ p.state ≠ .Dead ∧
      { p with state := .Zombie, exitCode := 128 + sig } ∈ q' := by
  induction q generalizing q' par with
  | nil => simp [killScan] at h
  | cons p rest ih =>
    by_cases hp : p.pid = pidT
    · by_cases h0 : p.ppid = 0
      · simp [killScan, hp, h0] at h
      · by_cases hpar : p.ppid ≠ curPid
        · simp [killScan, hp, h0, hpar] at h
        · by_cases hzd : p.state = .Zombie ∨ p.state = .Dead
          · simp [killScan, hp, h0, hpar, hzd] at h
          · have hpar' : p.ppid = curPid := by push_neg at hpar; exact hpar
            have hzd' : p.state ≠ .Zombie ∧ p.state ≠ .Dead := by
              push_neg at hzd; exact hzd
            simp only [killScan, if_pos hp, if_neg h0, if_neg hpar, if_neg hzd] at h
            cases h
            exact ⟨hpar', h0, p, List.mem_cons_self _ _, hp, hpar', hzd'.1, hzd'.2,
              List.mem_cons_self _ _⟩
    · simp only [killScan, if_neg hp] at h
      cases hks : killScan pidT curPid sig rest with
      | err e' => rw [hks] at h; cases h
      | ok q0 par0 =>
        rw [hks] at h
        cases h
        obtain ⟨h1, h2, w, hw, ha, hb, hc2, hd, he⟩ := ih _ _ hks
        exact ⟨h1, h2, w, List.mem_cons_of_mem _ hw, ha, hb, hc2, hd,
          List.mem_cons_of_mem _ he⟩
      | notFound => rw [hks] at h; cases h

/-- C3: `sys_kill` returns a negative errno among `-EINVAL`/`-EPERM`/`-ESRCH`
unless it succeeds; with a valid signal (9 or 15) and positive pid naming the
caller itself it runs `terminate_current` (never returning); and a success
(return 0) implies valid signal, positive pid and a queued child of the
caller, which is now `Zombie` with exit code `128+sig` in a queue on which
the target's parent (the caller) has been woken. -/
theorem c3_kill_checks (rq : RQ) (pid sig : Int) (cur : Proc) :
    (∀ r rq', sysKill rq pid sig = .ret r rq' →
      r = 0 ∨ r = -EINVAL ∨ r = -EPERM ∨ r = -ESRCH) ∧
    (rq.current = some cur → ¬ (pid ≤ 0 ∨ (sig ≠ 9 ∧ sig ≠ 15)) →
      u32OfI32 pid = cur.pid →
      sysKill rq pid sig = .diverged (terminateCurrent rq (128 + sig))) ∧
    (∀ rq', rq.current = some cur → sysKill rq pid sig = .ret 0 rq' →
      (sig = 9 ∨ sig = 15) ∧ 0 < pid ∧ rq'.current = rq.current ∧
      ∃ q₀, killScan (u32OfI32 pid) cur.pid sig rq.queue = .ok q₀ cur.pid ∧
        rq'.queue = wakeUp q₀ cur.pid ∧
        ∃ p ∈ rq.queue, p.pid = u32OfI32 pid ∧ p.ppid = cur.pid ∧
          p.state ≠ .Zombie ∧ p.state ≠ .Dead ∧
          { p with state := .Zombie, exitCode := 128 + sig } ∈ rq'.queue) := by
  refine ⟨?_, ?_, ?_⟩
  · intro r rq' h
    by_cases hg : pid ≤ 0 ∨ (sig ≠ 9 ∧ sig ≠ 15)
    · simp only [sysKill, if_pos hg, SysOutcome.ret.injEq] at h
      exact Or.inr (Or.inl h.1.symm)
    · simp only [sysKill, if_neg hg] at h
      cases hc : rq.current with
      | none =>
        rw [hc] at h
        simp only [SysOutcome.ret.injEq] at h
        exact Or.inr (Or.inr (Or.inr h.1.symm))
      | some c =>
        rw [hc] at h
        simp only at h
        by_cases hself : u32OfI32 pid = c.pid
        · rw [if_pos hself] at h
          simp at h
        · rw [if_neg hself] at h
          cases hks : killScan (u32OfI32 pid) c.pid sig rq.queue with
          | err e =>
            rw [hks] at h
            simp only [SysOutcome.ret.injEq] at h
            rcases killScan_err _ _ _ _ _ hks with he | he
            · exact Or.inr (Or.inr (Or.inl (h.1.symm.trans he)))
            · exact Or.inr (Or.inr (Or.inr (h.1.symm.trans he)))
          | ok q0 par =>
            rw [hks] at h
            simp only [SysOutcome.ret.injEq] at h
            exact Or.inl h.1.symm
          | notFound =>
            rw [hks] at h
            simp only [SysOutcome.ret.injEq] at h
            exact Or.inr (Or.inr (Or.inr h.1.symm))
  · intro hc hg hself
    simp [sysKill, hg, hc, hself]
  · intro rq' hc h
    by_cases hg : pid ≤ 0 ∨ (sig ≠ 9 ∧ sig ≠ 15)
    · rw [sysKill.eq_def, if_pos hg] at h
      simp [EINVAL] at h
    · have hpid : 0 < pid := by
        by_contra hx
        exact hg (Or.inl (by omega))
      have hv : sig = 9 ∨ sig = 15 := by
        by_cases h9 : sig = 9
        · exact Or.inl h9
        · by_cases h15 : sig = 15
          · exact Or.inr h15
          · exact absurd (Or.inr ⟨h9, h15⟩) hg
      rw [sysKill.eq_def, if_neg hg, hc] at h
      simp only at h
      by_cases hself : u32OfI32 pid = cur.pid
      · rw [if_pos hself] at h
        simp at h
      · rw [if_neg hself] at h
        cases hks : killScan (u32OfI32 pid) cur.pid sig rq.queue with
        | err e =>
          rw [hks] at h
          simp only [SysOutcome.ret.injEq] at h
          rcases killScan_err _ _ _ _ _ hks with he | he <;>
            (rw [he] at h; simp [EPERM, ESRCH] at h)
        | notFound =>
          rw [hks] at h
          simp [ESRCH] at h
        | ok q0 par =>
          rw [hks] at h
          simp only [SysOutcome.ret.injEq] at h
          obtain ⟨-, hrq⟩ := h
          obtain ⟨hpar, hpar0, p, hp, h1, h2, h3, h4, h5⟩ := killScan_ok _ _ _ _ _ _ hks
          subst hpar
          refine ⟨hv, hpid, ?_, q0, rfl, ?_, p, hp, h1, h2, h3, h4, ?_⟩
          · rw [← hrq, hc]
          · rw [← hrq]
            simp [if_pos hpar0]
          · rw [← hrq]
            simp only [if_pos hpar0]
            exact wakeUp_preserves _ _ _ h5 (by simp)

theorem c3_kill_checks_witness :
    sysKill (RQ.mk [Proc.mk 2 1 .Runnable 0 0 0 0] (some (Proc.mk 1 0 .Running 0 0 0 0))) 1 9
      = .diverged (terminateCurrent
          (RQ.mk [Proc.mk 2 1 .Runnable 0 0 0 0] (some (Proc.mk 1 0 .Running 0 0 0 0)))
          (128 + 9)) ∧
    ((9 : Int) = 9 ∨ (9 : Int) = 15) ∧ (0 : Int) < 2 :=
  ⟨(c3_kill_checks _ 1 9 (Proc.mk 1 0 .Running 0 0 0 0)).2.1 rfl (by decide) (by decide),
   ((c3_kill_checks
      (RQ.mk [Proc.mk 2 1 .Runnable 0 0 0 0] (some (Proc.mk 1 0 .Running 0 0 0 0))) 2 9
      (Proc.mk 1 0 .Running 0 0 0 0)).2.2
      (RQ.mk [Proc.mk 2 1 .Zombie 0 0 0 137] (some (Proc.mk 1 0 .Running 0 0 0 0)))
      rfl (by decide)).1,
   ((c3_kill_checks
      (RQ.mk [Proc.mk 2 1 .Runnable 0 0 0 0] (some (Proc.mk 1 0 .Running 0 0 0 0))) 2 9
      (Proc.mk 1 0 .Running 0 0 0 0)).2.2
      (RQ.mk [Proc.mk 2 1 .Zombie 0 0 0 137] (some (Proc.mk 1 0 .Running 0 0 0 0)))
      rfl (by decide)).2.1⟩

/-! ## C4: exit / exit_group -/

lemma pickIdxAux_runnable (g : List Proc) :
    ∀ (q : List Proc) (k : Nat) (best : Option (Nat × Nat)),
    (∀ j, q.get? j = g.get? (k + j)) →
    (∀ i pr, best = some (i, pr) → ∃ p, g.get? i = some p ∧ p.state = .Runnable) →
    ∀ i pr, pickIdxAux q k best = some (i, pr) →
      ∃ p, g.get? i = some p ∧ p.state = .Runnable := by
  intro q
  induction q with
  | nil =>
    intro k best hq hbest i pr h
    exact hbest i pr h
  | cons p rest ih =>
    intro k best hq hbest i pr h
    have hgk : g.get? k = some p := by
      have := hq 0
      simpa using this.symm
    have hq' : ∀ j, rest.get? j = g.get? (k + 1 + j) := by
      intro j
      have := hq (j + 1)
      simpa [Nat.add_comm, Nat.add_assoc, Nat.add_left_comm] using this
    simp only [pickIdxAux] at h
    by_cases hr : p.state = PState.Runnable
    · rw [if_pos hr] at h
      cases best with
      | none =>
        refine ih (k + 1) (some (k, p.priority)) hq' ?_ i pr h
        intro i' pr' hb
        cases hb
        exact ⟨p, hgk, hr⟩
      | some b =>
        obtain ⟨bi, bp⟩ := b
        simp only at h
        by_cases hlt : p.priority < bp
        · rw [if_pos hlt] at h
          refine ih (k + 1) (some (k, p.priority)) hq' ?_ i pr h
          intro i' pr' hb
          cases hb
          exact ⟨p, hgk, hr⟩
        · rw [if_neg hlt] at h
          exact ih (k + 1) (some (bi, bp)) hq' (fun i' pr' hb => by
            cases hb; exact hbest bi bp rfl) i pr h
    · rw [if_neg hr] at h
      exact ih (k + 1) best hq' hbest i pr h

lemma pickNext_spec (q : List Proc) (p : Proc) (rest : List Proc)
    (h : pickNext q = some (p, rest)) :
    p.state = .Runnable ∧ ∃ i, q.get? i = some p ∧ rest = q.eraseIdx i := by
  unfold pickNext at h
  cases hpi : pickIdxAux q 0 none with
  | none => rw [hpi] at h; cases h
  | some b =>
    obtain ⟨i, pr⟩ := b
    rw [hpi] at h
    simp only at h
    cases hg : q.get? i with
    | none => rw [hg] at h; cases h
    | some p' =>
      rw [hg] at h
      cases h
      obtain ⟨w, hw, hws⟩ := pickIdxAux_runnable q q 0 none (fun j => by simp)
        (fun _ _ hb => by cases hb) i pr hpi
      have hwp : w = p := by
        rw [hg] at hw
        exact (Option.some.inj hw).symm
      exact ⟨hwp ▸ hws, i, hg, rfl⟩

lemma mem_eraseIdx_of_ne (q : List Proc) (z p : Proc) :
    ∀ i, z ∈ q → q.get? i = some p → z ≠ p → z ∈ q.eraseIdx i := by
  induction q with
  | nil => intro i hz; simp at hz
  | cons a rest ih =>
    intro i hz hg hne
    cases i with
    | zero =>
      simp only [List.get?] at hg
      cases hg
      rcases List.mem_cons.mp hz with hza | hz'
      · exact absurd hza hne
      · simpa [List.eraseIdx]
    | succ i' =>
      simp only [List.get?] at hg
      rcases List.mem_cons.mp hz with hza | hz'
      · simp [List.eraseIdx, hza]
      · simpa [List.eraseIdx] using Or.inr (ih i' hz' hg hne)

lemma zombie_stays_in_schedule (rq : RQ) (z : Proc)
    (hcur : rq.current = some z) (hz : z.state = .Zombie) :
    z ∈ (scheduleStep rq).queue := by
  have hq1 : z ∈ rq.queue ++ [z] := by simp
  have hstep : scheduleStep rq =
      match pickNext (rq.queue ++ [z]) with
      | some (p, rest) => { queue := rest, current := some { p with state := .Running } }
      | none => { queue := rq.queue ++ [z], current := none } := by
    simp [scheduleStep, hcur, hz]
  rw [hstep]
  cases hp : pickNext (rq.queue ++ [z]) with
  | none => simpa using hq1
  | some pr =>
    obtain ⟨p, rest⟩ := pr
    obtain ⟨hps, i, hgi, hrest⟩ := pickNext_spec _ _ _ hp
    have hne : z ≠ p := by
      intro he
      rw [← he] at hps
      rw [hz] at hps
      cases hps
    simpa [hrest] using mem_eraseIdx_of_ne _ z p i hq1 hgi hne

/-- C4: the exit/exit_group dispatch arm runs `terminate_current(a0 as i32)`
and never returns; the current process becomes `Zombie` with the exit code
recorded; a parent sleeping in the queue (as in `waitpid`) is woken to
`Runnable`; and the zombie is kept in the queue by the scheduler (it is
removed only by a parent's `waitpid` reap). -/
theorem c4_exit_terminates (rq : RQ) (a0 : Nat) (cur : Proc)
    (hcur : rq.current = some cur) (hpp : cur.ppid ≠ 0) :
    exitArm rq a0 = .diverged (terminateCurrent rq (i32OfU64 a0)) ∧
    (terminateCurrent rq (i32OfU64 a0)).current =
      some { cur with state := .Zombie, exitCode := i32OfU64 a0 } ∧
    ((∃ p ∈ rq.queue, p.pid = cur.ppid ∧ p.state = .Sleeping) →
      ∃ p ∈ (terminateCurrent rq (i32OfU64 a0)).queue,
        p.pid = cur.ppid ∧ p.state = .Runnable) ∧
    { cur with state := .Zombie, exitCode := i32OfU64 a0 } ∈
      (scheduleStep (terminateCurrent rq (i32OfU64 a0))).queue := by
  refine ⟨rfl, ?_, ?_, ?_⟩
  · simp [terminateCurrent, hcur]
  · intro hsleep
    simp only [terminateCurrent, hcur, if_pos hpp]
    exact wakeUp_wakes _ _ hsleep
  · apply zombie_stays_in_schedule
    · simp [terminateCurrent, hcur]
    · rfl

/-- The `find?` predicate used by `find_zombie_child`. -/
lemma findZombieChild_some (rq : RQ) (target : Int) (cur : Proc) (cpid : Nat) (ec : Int)
    (hcur : rq.current = some cur) (h : findZombieChild rq target = some (cpid, ec)) :
    ∃ p ∈ rq.queue, p.pid = cpid ∧ p.exitCode = ec ∧ p.ppid = cur.pid ∧
      p.state = .Zombie ∧ (target = -1 ∨ p.pid = u32OfI32 target) := by
  unfold findZombieChild at h
  rw [hcur] at h
  simp only at h
  cases hf : rq.queue.find? (fun p =>
      decide (p.ppid = cur.pid) &&
      (decide (target = -1) || decide (p.pid = u32OfI32 target)) &&
      decide (p.state = PState.Zombie)) with
  | none => rw [hf] at h; cases h
  | some p =>
    rw [hf] at h
    cases h
    have hmem := List.mem_of_find?_eq_some hf
    have hpred := List.find?_some hf
    simp only [Bool.and_eq_true, Bool.or_eq_true, decide_eq_true_eq] at hpred
    exact ⟨p, hmem, rfl, rfl, hpred.1.1, hpred.2, hpred.1.2⟩

/-- C5: one iteration of `sys_waitpid`.  A zombie child found → the status
word `(exit_code & 0xFF) << 8` is stored at the translated `out_status`
address, the child is removed from the queue, and its pid is returned; the
found process is a `Zombie` child of the caller matching `target` (or any
child for `-1`); after the reap no lookup can report that pid again.  With
no zombie child, `WNOHANG` returns 0 and otherwise the process sleeps and
retries. -/
theorem c5_waitpid_reports_once (rq : RQ) (tr : Nat → Option Nat) (mem : Nat → Nat)
    (target : Int) (ptr : Nat) (options : Nat) (cur : Proc) (cpid : Nat) (ec : Int)
    (phys : Nat) :
    (rq.current = some cur → findZombieChild rq target = some (cpid, ec) →
      ptr ≠ 0 → tr ptr = some phys →
      waitpidStep rq tr mem target ptr options =
        .found cpid
          { queue := rq.queue.filter (fun p => p.pid ≠ cpid), current := rq.current }
          (fun a => if a = phys then statusWord ec else mem a) ∧
      (∃ p ∈ rq.queue, p.pid = cpid ∧ p.exitCode = ec ∧ p.ppid = cur.pid ∧
        p.state = .Zombie ∧ (target = -1 ∨ p.pid = u32OfI32 target)) ∧
      (∀ target' ec',
        findZombieChild
          { queue := rq.queue.filter (fun p => p.pid ≠ cpid), current := rq.current }
          target' ≠ some (cpid, ec'))) ∧
    (findZombieChild rq target = none → options &&& 1 ≠ 0 →
      waitpidStep rq tr mem target ptr options = .ret0) ∧
    (findZombieChild rq target = none → options &&& 1 = 0 →
      waitpidStep rq tr mem target ptr options = .sleepRetry) := by
  refine ⟨?_, ?_, ?_⟩
  · intro hcur hfind hptr htr
    refine ⟨by simp [waitpidStep, hfind, hptr, htr], findZombieChild_some _ _ _ _ _ hcur hfind, ?_⟩
    intro target' ec' h
    cases hc' : rq.current with
    | none => unfold findZombieChild at h; rw [hc'] at h; simp at h
    | some c' =>
      obtain ⟨p, hp, hpid, -⟩ := findZombieChild_some
        { queue := rq.queue.filter (fun p => p.pid ≠ cpid), current := rq.current }
        target' c' cpid ec' (by simpa using hc') h
      have := List.of_mem_filter hp
      simp only [decide_eq_true_eq] at this
      exact this hpid
  · intro hfind hop
    simp only [waitpidStep, hfind]
    rw [if_pos hop]
  · intro hfind hop
    simp only [waitpidStep, hfind]
    rw [if_neg (by simp [hop])]

theorem c5_waitpid_reports_once_witness :
    waitpidStep
        (RQ.mk [Proc.mk 2 1 .Zombie 0 0 0 42] (some (Proc.mk 1 0 .Running 0 0 0 0)))
        (fun _ => some 0x5000) (fun _ => 0) (-1) 0x100 0 =
      .found 2
        { queue := (RQ.mk [Proc.mk 2 1 .Zombie 0 0 0 42]
            (some (Proc.mk 1 0 .Running 0 0 0 0))).queue.filter (fun p => p.pid ≠ 2),
          current := (RQ.mk [Proc.mk 2 1 .Zombie 0 0 0 42]
            (some (Proc.mk 1 0 .Running 0 0 0 0))).current }
        (fun a => if a = 0x5000 then statusWord 42 else (fun _ => 0 : Nat → Nat) a) :=
  ((c5_waitpid_reports_once
      (RQ.mk [Proc.mk 2 1 .Zombie 0 0 0 42] (some (Proc.mk 1 0 .Running 0 0 0 0)))
      (fun _ => some 0x5000) (fun _ => 0) (-1) 0x100 0
      (Proc.mk 1 0 .Running 0 0 0 0) 2 42 0x5000).1 rfl (by decide) (by decide) rfl).1

/-- With a zombie child found but a non-null `wstatus_ptr` whose translation
fails, `sys_waitpid` silently skips the status write (`if let Some(phys)`,
memory unchanged) and still reaps the child and returns its pid — it does
not return `-EFAULT`. -/
lemma waitpidStep_unmapped_ptr (rq : RQ) (tr : Nat → Option Nat) (mem : Nat → Nat)
    (target : Int) (ptr opts cpid : Nat) (ec : Int)
    (hfind : findZombieChild rq target = some (cpid, ec))
    (hptr : ptr ≠ 0) (htr : tr ptr = none) :
    waitpidStep rq tr mem target ptr opts =
      .found cpid
        { queue := rq.queue.filter (fun p => p.pid ≠ cpid), current := rq.current }
        mem := by
  simp only [waitpidStep, hfind, htr, if_pos hptr]

/-- **C2 counterexample**: not every user-pointer syscall fails with
`-EFAULT` on an unmapped address. Here the caller (pid 1) waits with the
non-null status pointer `0x2000` in an address space where nothing is
mapped (`translate` is constantly `none`): `sys_waitpid` skips the status
write (the memory is returned untouched), reaps the zombie child, and
returns its pid 2 — not `-EFAULT`. -/
theorem c2_waitpid_no_efault_counterexample :
    waitpidStep
        (RQ.mk [Proc.mk 2 1 .Zombie 0 0 0 7] (some (Proc.mk 1 0 .Running 0 0 0 0)))
        (fun _ => none) (fun _ => 0) (-1) 0x2000 0 =
      .found 2 (RQ.mk [] (some (Proc.mk 1 0 .Running 0 0 0 0))) (fun _ => 0) ∧
    (0x2000 : Nat) ≠ 0 ∧ (2 : Int) ≠ -EFAULT := by
  exact ⟨rfl, by decide, by decide⟩

theorem c4_exit_terminates_witness :
    exitArm (RQ.mk [Proc.mk 1 0 .Sleeping 0 0 0 0] (some (Proc.mk 2 1 .Running 0 0 0 0))) 42
      = .diverged (terminateCurrent
          (RQ.mk [Proc.mk 1 0 .Sleeping 0 0 0 0] (some (Proc.mk 2 1 .Running 0 0 0 0)))
          (i32OfU64 42)) ∧
    (terminateCurrent
        (RQ.mk [Proc.mk 1 0 .Sleeping 0 0 0 0] (some (Proc.mk 2 1 .Running 0 0 0 0)))
        (i32OfU64 42)).current =
      some { Proc.mk 2 1 .Running 0 0 0 0 with state := .Zombie, exitCode := i32OfU64 42 } :=
  ⟨(c4_exit_terminates _ 42 (Proc.mk 2 1 .Running 0 0 0 0) rfl (by decide)).1,
   (c4_exit_terminates _ 42 (Proc.mk 2 1 .Running 0 0 0 0) rfl (by decide)).2.1⟩

/-! ## Page tables (`src/mm/vmm.rs`)

Physical memory is modelled at page-table granularity: `mem frame idx` is
the 64-bit entry at index `idx` of the 4 KiB frame based at physical
address `frame` (every frame is reachable through the HHDM alias).  The
allocator (`alloc_zeroed_frame`) pops from an explicit supply of free
frames and zeroes the frame. -/

def PTE_PRESENT : Nat := 1
def PTE_WRITABLE : Nat := 2
def PTE_USER : Nat := 4
def PTE_LARGE : Nat := 128
def PTE_NO_EXEC : Nat := 2 ^ 63
def PTE_ADDR_MASK : Nat := 0x000FFFFFFFFFF000

def pml4Idx (v : Nat) : Nat := (v >>> 39) &&& 0x1FF
def pdptIdx (v : Nat) : Nat := (v >>> 30) &&& 0x1FF
def pdIdx (v : Nat) : Nat := (v >>> 21) &&& 0x1FF
def ptIdx (v : Nat) : Nat := (v >>> 12) &&& 0x1FF

structure Machine where
  mem : Nat → Nat → Nat
  free : List Nat

def writeEntry (m : Nat → Nat → Nat) (t i val : Nat) : Nat → Nat → Nat :=
  fun t' i' => if t' = t ∧ i' = i then val else m t' i'

def zeroFrame (m : Nat → Nat → Nat) (t : Nat) : Nat → Nat → Nat :=
  fun t' i' => if t' = t then 0 else m t' i'

/-- `alloc_zeroed_frame` (`src/mm/pmm.rs`): pop a free frame and zero it. -/
def allocZeroedFrame (st : Machine) : Option (Nat × Machine) :=
  match st.free with
  | [] => none
  | f :: rest => some (f, ⟨zeroFrame st.mem f, rest⟩)

/-- `PageTable::get_or_alloc_table`: reuse a present entry, else allocate a
zeroed table, install `phys | flags | PRESENT`, and return the entry's
address field. -/
def getOrAllocTable (st : Machine) (table idx flags : Nat) : Option (Machine × Nat) :=
  if st.mem table idx &&& PTE_PRESENT ≠ 0 then
    some (st, st.mem table idx &&& PTE_ADDR_MASK)
  else
    match allocZeroedFrame st with
    | none => none
    | some (f, st') =>
      let entry := f ||| flags ||| PTE_PRESENT
      some (⟨writeEntry st'.mem table idx entry, st'.free⟩, entry &&& PTE_ADDR_MASK)

/-- `PageTable::get_table`: follow a present entry. -/
def getTable (m : Nat → Nat → Nat) (table idx : Nat) : Option Nat :=
  if m table idx &&& PTE_PRESENT ≠ 0 then some (m table idx &&& PTE_ADDR_MASK) else none

/-- `AddressSpace::map`: walk the four levels allocating missing tables with
parent flags `W|U`, then install the leaf `((phys & ADDR_MASK) | flags |
PRESENT)`.  The `Bool` mirrors the source's return value; on failure the
partially-mutated state is kept, as in the source. -/
def mapPage (st : Machine) (root virt phys flags : Nat) : Bool × Machine :=
  match getOrAllocTable st root (pml4Idx virt) (PTE_WRITABLE ||| PTE_USER) with
  | none => (false, st)
  | some (st1, pdpt) =>
    match getOrAllocTable st1 pdpt (pdptIdx virt) (PTE_WRITABLE ||| PTE_USER) with
    | none => (false, st1)
    | some (st2, pd) =>
      match getOrAllocTable st2 pd (pdIdx virt) (PTE_WRITABLE ||| PTE_USER) with
      | none => (false, st2)
      | some (st3, pt) =>
        (true, ⟨writeEntry st3.mem pt (ptIdx virt)
          ((phys &&& PTE_ADDR_MASK) ||| flags ||| PTE_PRESENT), st3.free⟩)

/-- `AddressSpace::unmap`: zero the leaf entry if the walk reaches it. -/
def unmapPage (st : Machine) (root virt : Nat) : Machine :=
  match getTable st.mem root (pml4Idx virt) with
  | none => st
  | some pdpt =>
    match getTable st.mem pdpt (pdptIdx virt) with
    | none => st
    | some pd =>
      match getTable st.mem pd (pdIdx virt) with
      | none => st
      | some pt => ⟨writeEntry st.mem pt (ptIdx virt) 0, st.free⟩

/-- `AddressSpace::translate`: walk to the PD, take the 2 MiB branch when
the PD entry has `PS` set, else follow to the PT and require `PRESENT`. -/
def translatePage (m : Nat → Nat → Nat) (root virt : Nat) : Option Nat :=
  match getTable m root (pml4Idx virt) with
  | none => none
  | some pdpt =>
    match getTable m pdpt (pdptIdx virt) with
    | none => none
    | some pd =>
      if m pd (pdIdx virt) &&& PTE_LARGE ≠ 0 then
        some ((m pd (pdIdx virt) &&& PTE_ADDR_MASK) + (virt &&& 0x1FFFFF))
      else
        match getTable m pd (pdIdx virt) with
        | none => none
        | some pt =>
          if m pt (ptIdx virt) &&& PTE_PRESENT = 0 then none
          else some ((m pt (ptIdx virt) &&& PTE_ADDR_MASK) ||| (virt &&& 0xFFF))

/-! ## Page-fault router (`src/mm/vmm.rs`) and fork's VMA clone
(`src/proc/fork.rs`) -/

/-- The `copy_nonoverlapping` of a whole frame in `handle_cow`. -/
def copyFrame (m : Nat → Nat → Nat) (src dst : Nat) : Nat → Nat → Nat :=
  fun t i => if t = dst then m src i else m t i

/-- `handle_demand_page`: fresh zeroed frame mapped with flags derived from
the VMA (`U`, `W` if VMA.WRITE, `NX` unless VMA.EXEC). -/
def handleDemandPage (st : Machine) (root addr : Nat) (vma : VmaEntry) : Bool × Machine :=
  let pageAddr := alignDown4k addr
  match allocZeroedFrame st with
  | none => (false, st)
  | some (phys, st') =>
    let f1 := PTE_PRESENT ||| PTE_USER
    let f2 := if hasFlag vma.flags VMA_WRITE then f1 ||| PTE_WRITABLE else f1
    let f3 := if ¬ hasFlag vma.flags VMA_EXEC then f2 ||| PTE_NO_EXEC else f2
    mapPage st' root pageAddr phys f3

/-- `handle_cow`: duplicate the backing frame and remap writable (the source
returns `true` regardless of the `map` result). -/
def handleCow (st : Machine) (root addr : Nat) : Bool × Machine :=
  let pageAddr := alignDown4k addr
  match translatePage st.mem root pageAddr with
  | none => (false, st)
  | some oldPhys =>
    match allocZeroedFrame st with
    | none => (false, st)
    | some (newPhys, st') =>
      let st2 : Machine := ⟨copyFrame st'.mem oldPhys newPhys, st'.free⟩
      (true,
        (mapPage st2 root pageAddr newPhys
          (PTE_PRESENT ||| PTE_WRITABLE ||| PTE_USER)).2)

/-- `handle_page_fault`: locate the VMA; a write fault on a NON-writable VMA
takes the CoW branch when `COPY_ON_WRITE` is set; a non-present fault inside
a VMA is demand-zeroed; everything else is unhandled. -/
def handlePageFault (st : Machine) (root : Nat) (vm : VmSpace) (addr error : Nat) :
    Bool × Machine :=
  let write := error &&& 2 ≠ 0
  match vm.findVma addr with
  | none => (false, st)
  | some vma =>
    if write ∧ ¬ hasFlag vma.flags VMA_WRITE then
      if hasFlag vma.flags VMA_COPY_ON_WRITE then handleCow st root addr
      else (false, st)
    else if error &&& 1 = 0 then handleDemandPage st root addr vma
    else (false, st)

/-- `clone_vmspace` (`src/proc/fork.rs`): copy the parent's VMA list; a
writable anonymous VMA additionally gains `COPY_ON_WRITE` (the `WRITE` flag
is kept). -/
def cloneVmspace (parent : VmSpace) : VmSpace :=
  { areas := parent.areas.map (fun vma =>
      { start := vma.start, stop := vma.stop,
        flags := if hasFlag vma.flags VMA_WRITE ∧ hasFlag vma.flags VMA_ANONYMOUS
          then vma.flags ||| VMA_COPY_ON_WRITE else vma.flags }),
    brk := parent.brk }

/-- C1: the failing input, evaluated.  `clone_vmspace` gives the child VMA
flags `READ|WRITE|ANONYMOUS|COPY_ON_WRITE` (keeping `WRITE`), so a write
fault (`error = present|write|user = 7`) on a present read-only page is NOT
routed to the CoW handler — `handle_page_fault` requires the VMA to lack
`WRITE` before checking `COPY_ON_WRITE` — and returns `false` (unhandled,
so the writer is terminated instead of receiving a private copy).  The same
happens to the parent, whose VMA keeps `READ|WRITE|ANONYMOUS` with no
`COPY_ON_WRITE` at all. -/
theorem c1_cow_write_fault_unhandled :
    (cloneVmspace
        (VmSpace.mk [VmaEntry.mk 0x400000 0x401000
          (VMA_READ ||| VMA_WRITE ||| VMA_ANONYMOUS)] 0x10000000)).areas =
      [VmaEntry.mk 0x400000 0x401000
        (VMA_READ ||| VMA_WRITE ||| VMA_ANONYMOUS ||| VMA_COPY_ON_WRITE)] ∧
    hasFlag (VMA_READ ||| VMA_WRITE ||| VMA_ANONYMOUS ||| VMA_COPY_ON_WRITE)
      VMA_COPY_ON_WRITE = true ∧
    hasFlag (VMA_READ ||| VMA_WRITE ||| VMA_ANONYMOUS ||| VMA_COPY_ON_WRITE)
      VMA_WRITE = true ∧
    (handlePageFault (Machine.mk (fun _ _ => 0) []) 0
        (cloneVmspace
          (VmSpace.mk [VmaEntry.mk 0x400000 0x401000
            (VMA_READ ||| VMA_WRITE ||| VMA_ANONYMOUS)] 0x10000000))
        0x400000 7).1 = false ∧
    (handlePageFault (Machine.mk (fun _ _ => 0) []) 0
        (VmSpace.mk [VmaEntry.mk 0x400000 0x401000
          (VMA_READ ||| VMA_WRITE ||| VMA_ANONYMOUS)] 0x10000000)
        0x400000 7).1 = false := by
  refine ⟨by decide, by decide, by decide, ?_, ?_⟩ <;> rfl

/-! ## C7: map / translate / unmap round trip -/

lemma land_lor_right (a b c : Nat) : (a ||| b) &&& c = (a &&& c) ||| (b &&& c) := by
  apply Nat.eq_of_testBit_eq
  intro i
  simp [Nat.testBit_land, Nat.testBit_lor, Bool.and_or_distrib_right]

lemma testBit_addr_mask (j : Nat) :
    PTE_ADDR_MASK.testBit j = (decide (12 ≤ j) && decide (j < 52)) := by
  have h : PTE_ADDR_MASK = (2 ^ 52 - 1) ^^^ (2 ^ 12 - 1) := by decide
  rw [h, Nat.testBit_xor, Nat.testBit_two_pow_sub_one, Nat.testBit_two_pow_sub_one]
  by_cases h12 : j < 12 <;> by_cases h52 : j < 52 <;>
    simp [h12, h52] <;> omega

lemma testBit_false_of_aligned (f j : Nat) (hf : f % 4096 = 0) (hj : j < 12) :
    f.testBit j = false := by
  obtain ⟨k, hk⟩ : (4096 : Nat) ∣ f := Nat.dvd_of_mod_eq_zero hf
  subst hk
  rw [Nat.testBit_to_div_mod]
  have hsplit : (4096 : Nat) = 2 ^ j * 2 ^ (12 - j) := by
    rw [← Nat.pow_add]
    have hj' : j + (12 - j) = 12 := by omega
    rw [hj']
  rw [hsplit, Nat.mul_assoc, Nat.mul_div_cancel_left _ (Nat.pos_pow_of_pos j (by omega))]
  have : 2 ^ (12 - j) * k % 2 = 0 := by
    have h2 : (2 : Nat) ∣ 2 ^ (12 - j) * k := by
      apply Dvd.dvd.mul_right
      exact dvd_pow_self 2 (by omega)
    omega
  simp [this]

lemma aligned_land_mask (f : Nat) (hf : f % 4096 = 0) (h52 : f < 2 ^ 52) :
    f &&& PTE_ADDR_MASK = f := by
  apply Nat.eq_of_testBit_eq
  intro j
  rw [Nat.testBit_land, testBit_addr_mask]
  by_cases hj : j < 12
  · rw [testBit_false_of_aligned f j hf hj]
    simp
  · by_cases hj52 : j < 52
    · have h12 : 12 ≤ j := by omega
      simp [h12, hj52]
    · have hbit : f.testBit j = false :=
        Nat.testBit_lt_two_pow (lt_of_lt_of_le h52 (Nat.pow_le_pow_right (by omega) (by omega)))
      simp [hbit]

lemma small_land_mask (m : Nat) (hm : m < 4096) : m &&& PTE_ADDR_MASK = 0 := by
  apply Nat.eq_of_testBit_eq
  intro j
  rw [Nat.testBit_land, testBit_addr_mask]
  by_cases hj : j < 12
  · have h12 : ¬ 12 ≤ j := by omega
    simp [h12]
  · have hbit : m.testBit j = false :=
      Nat.testBit_lt_two_pow (lt_of_lt_of_le hm (by
        calc (4096 : Nat) = 2 ^ 12 := by norm_num
        _ ≤ 2 ^ j := Nat.pow_le_pow_right (by omega) (by omega)))
    simp [hbit]

/-- `(f | m) & ADDR_MASK = f` for an aligned 52-bit frame and low flag bits. -/
lemma entry_mask (f m : Nat) (hf : f % 4096 = 0) (h52 : f < 2 ^ 52) (hm : m < 4096) :
    (f ||| m) &&& PTE_ADDR_MASK = f := by
  rw [land_lor_right, aligned_land_mask f hf h52, small_land_mask m hm, Nat.or_zero]

lemma lor_present (a b : Nat) : (a ||| b ||| PTE_PRESENT) &&& PTE_PRESENT ≠ 0 := by
  intro h
  have h0 := congrArg (fun x => Nat.testBit x 0) h
  simp [PTE_PRESENT, Nat.testBit_land, Nat.testBit_lor] at h0

lemma aligned_land_small (f c : Nat) (hf : f % 4096 = 0) (hc : c < 4096) :
    f &&& c = 0 := by
  apply Nat.eq_of_testBit_eq
  intro j
  rw [Nat.testBit_land]
  by_cases hj : j < 12
  · rw [testBit_false_of_aligned f j hf hj]
    simp
  · have hbit : c.testBit j = false :=
      Nat.testBit_lt_two_pow (lt_of_lt_of_le hc (by
        calc (4096 : Nat) = 2 ^ 12 := by norm_num
        _ ≤ 2 ^ j := Nat.pow_le_pow_right (by omega) (by omega)))
    simp [hbit]

/-- The `(f | W|U | PRESENT) & ADDR_MASK = f` fact for a fresh table frame. -/
lemma fresh_entry_mask (f : Nat) (hf : f % 4096 = 0) (h52 : f < 2 ^ 52) :
    (f ||| (PTE_WRITABLE ||| PTE_USER) ||| PTE_PRESENT) &&& PTE_ADDR_MASK = f := by
  rw [land_lor_right, land_lor_right, aligned_land_mask f hf h52,
    small_land_mask _ (by decide), small_land_mask _ (by decide)]
  simp

lemma fresh_entry_no_large (f : Nat) (hf : f % 4096 = 0) :
    (f ||| (PTE_WRITABLE ||| PTE_USER) ||| PTE_PRESENT) &&& PTE_LARGE = 0 := by
  rw [land_lor_right, land_lor_right, aligned_land_small f _ hf (by decide)]
  decide

/-- The intermediate table frames on `v`'s existing walk, root first. -/
def chain (st : Machine) (root v : Nat) : List Nat :=
  root ::
    (match getTable st.mem root (pml4Idx v) with
     | none => []
     | some t1 => t1 ::
       (match getTable st.mem t1 (pdptIdx v) with
        | none => []
        | some t2 => t2 ::
          (match getTable st.mem t2 (pdIdx v) with
           | none => []
           | some t3 => [t3])))

/-- Well-formedness of the pre-state along `v`'s path: the table frames on
the walk and the first three free frames are pairwise distinct; free frames
are page-aligned 52-bit addresses; and a present PD entry on the path is not
a 2 MiB (`PS`) mapping — those are created only by `map_large` and `map`
does not handle them. -/
def PathOk (st : Machine) (root v : Nat) : Prop :=
  (chain st root v ++ st.free.take 3).Pairwise (· ≠ ·) ∧
  (∀ f ∈ st.free.take 3, f % 4096 = 0 ∧ f < 2 ^ 52) ∧
  (∀ t1 t2, getTable st.mem root (pml4Idx v) = some t1 →
    getTable st.mem t1 (pdptIdx v) = some t2 →
    st.mem t2 (pdIdx v) &&& PTE_PRESENT ≠ 0 →
    st.mem t2 (pdIdx v) &&& PTE_LARGE = 0)

lemma getOrAllocTable_cases (st : Machine) (tbl idx fl : Nat) (st' : Machine) (t : Nat)
    (h : getOrAllocTable st tbl idx fl = some (st', t)) :
    (st.mem tbl idx &&& PTE_PRESENT ≠ 0 ∧ st' = st ∧
      t = st.mem tbl idx &&& PTE_ADDR_MASK) ∨
    (∃ f rest, st.mem tbl idx &&& PTE_PRESENT = 0 ∧ st.free = f :: rest ∧
      t = (f ||| fl ||| PTE_PRESENT) &&& PTE_ADDR_MASK ∧
      st'.mem = writeEntry (zeroFrame st.mem f) tbl idx (f ||| fl ||| PTE_PRESENT) ∧
      st'.free = rest) := by
  unfold getOrAllocTable allocZeroedFrame at h
  by_cases hp : st.mem tbl idx &&& PTE_PRESENT ≠ 0
  · rw [if_pos hp] at h
    cases h
    exact Or.inl ⟨hp, rfl, rfl⟩
  · rw [if_neg hp] at h
    cases hf : st.free with
    | nil => rw [hf] at h; cases h
    | cons f rest =>
      rw [hf] at h
      simp only at h
      cases h
      exact Or.inr ⟨f, rest, by omega, rfl, rfl, rfl, rfl⟩

/-- With the four path entries installed, `translate` recovers `p`. -/
lemma translate_of_facts (m : Nat → Nat → Nat) (root v t1 t2 t3 p flags : Nat)
    (hv : v % 4096 = 0) (hp : p % 4096 = 0) (hp52 : p < 2 ^ 52)
    (hfl : flags &&& PTE_ADDR_MASK = 0)
    (h1p : m root (pml4Idx v) &&& PTE_PRESENT ≠ 0)
    (h1m : m root (pml4Idx v) &&& PTE_ADDR_MASK = t1)
    (h2p : m t1 (pdptIdx v) &&& PTE_PRESENT ≠ 0)
    (h2m : m t1 (pdptIdx v) &&& PTE_ADDR_MASK = t2)
    (h3p : m t2 (pdIdx v) &&& PTE_PRESENT ≠ 0)
    (h3m : m t2 (pdIdx v) &&& PTE_ADDR_MASK = t3)
    (h3l : m t2 (pdIdx v) &&& PTE_LARGE = 0)
    (h4 : m t3 (ptIdx v) = (p &&& PTE_ADDR_MASK) ||| flags ||| PTE_PRESENT) :
    translatePage m root v = some p := by
  have hpm : p &&& PTE_ADDR_MASK = p := aligned_land_mask p hp hp52
  have hleafp : m t3 (ptIdx v) &&& PTE_PRESENT ≠ 0 := by
    rw [h4]
    exact lor_present _ _
  have hleafm : m t3 (ptIdx v) &&& PTE_ADDR_MASK = p := by
    rw [h4, land_lor_right, land_lor_right, hpm, hpm, hfl,
      small_land_mask PTE_PRESENT (by decide)]
    simp
  have hvlow : v &&& 0xFFF = 0 := aligned_land_small v 0xFFF hv (by decide)
  unfold translatePage getTable
  rw [if_pos h1p, h1m]
  simp only
  rw [if_pos h2p, h2m]
  simp only
  rw [if_neg (by rw [h3l]; simp)]
  rw [if_pos h3p, h3m]
  simp only
  rw [if_neg hleafp]
  rw [hleafm, hvlow]
  simp

/-- After `unmap`, the leaf is zero and `translate` misses. -/
lemma unmap_translate_none (m : Nat → Nat → Nat) (fr : List Nat) (root v t1 t2 t3 : Nat)
    (h1p : m root (pml4Idx v) &&& PTE_PRESENT ≠ 0)
    (h1m : m root (pml4Idx v) &&& PTE_ADDR_MASK = t1)
    (h2p : m t1 (pdptIdx v) &&& PTE_PRESENT ≠ 0)
    (h2m : m t1 (pdptIdx v) &&& PTE_ADDR_MASK = t2)
    (h3p : m t2 (pdIdx v) &&& PTE_PRESENT ≠ 0)
    (h3m : m t2 (pdIdx v) &&& PTE_ADDR_MASK = t3)
    (h3l : m t2 (pdIdx v) &&& PTE_LARGE = 0)
    (hne1 : root ≠ t3) (hne2 : t1 ≠ t3) (hne3 : t2 ≠ t3) :
    translatePage (unmapPage ⟨m, fr⟩ root v).mem root v = none := by
  have hunm : (unmapPage ⟨m, fr⟩ root v).mem = writeEntry m t3 (ptIdx v) 0 := by
    unfold unmapPage getTable
    simp only
    rw [if_pos h1p, h1m]
    simp only
    rw [if_pos h2p, h2m]
    simp only
    rw [if_pos h3p, h3m]
  rw [hunm]
  have e1 : writeEntry m t3 (ptIdx v) 0 root (pml4Idx v) =
      m root (pml4Idx v) := by
    simp [writeEntry, hne1]
  have e2 : writeEntry m t3 (ptIdx v) 0 t1 (pdptIdx v) =
      m t1 (pdptIdx v) := by
    simp [writeEntry, hne2]
  have e3 : writeEntry m t3 (ptIdx v) 0 t2 (pdIdx v) =
      m t2 (pdIdx v) := by
    simp [writeEntry, hne3]
  have e4 : writeEntry m t3 (ptIdx v) 0 t3 (ptIdx v) = 0 := by
    simp [writeEntry]
  unfold translatePage getTable
  rw [e1, if_pos h1p, h1m]
  simp only
  rw [e2, if_pos h2p, h2m]
  simp only
  rw [e3, if_neg (by rw [h3l]; simp), if_pos h3p, h3m]
  simp only
  rw [e4]
  simp [PTE_PRESENT]

lemma writeEntry_ne_frame (m : Nat → Nat → Nat) (t i val a b : Nat) (h : a ≠ t) :
    writeEntry m t i val a b = m a b := by
  simp [writeEntry, h]

lemma zeroFrame_ne (m : Nat → Nat → Nat) (t a b : Nat) (h : a ≠ t) :
    zeroFrame m t a b = m a b := by
  simp [zeroFrame, h]

lemma writeEntry_self (m : Nat → Nat → Nat) (t i val : Nat) :
    writeEntry m t i val t i = val := by
  simp [writeEntry]

lemma zeroFrame_self (m : Nat → Nat → Nat) (t b : Nat) : zeroFrame m t t b = 0 := by
  simp [zeroFrame]

/-- C7: for page-aligned `v` and `p` (with `p` a 52-bit frame address) and
valid leaf flags (no bits inside the PTE address field), on a well-formed
path (`PathOk`), a successful `map(v, p, flags)` makes `translate(v) = p`,
and a subsequent `unmap(v)` makes `translate(v) = none`. -/
theorem c7_map_translate_roundtrip (st st' : Machine) (root v p flags : Nat)
    (hv : v % 4096 = 0) (hp : p % 4096 = 0) (hp52 : p < 2 ^ 52)
    (hfl : flags &&& PTE_ADDR_MASK = 0) (hpath : PathOk st root v)
    (hmap : mapPage st root v p flags = (true, st')) :
    translatePage st'.mem root v = some p ∧
    translatePage (unmapPage st' root v).mem root v = none := by
  obtain ⟨hpw, hfree, hlargeOk⟩ := hpath
  unfold mapPage at hmap
  cases hg1 : getOrAllocTable st root (pml4Idx v) (PTE_WRITABLE ||| PTE_USER) with
  | none => rw [hg1] at hmap; cases hmap
  | some r1 =>
  obtain ⟨st1, t1⟩ := r1
  rw [hg1] at hmap
  simp only at hmap
  cases hg2 : getOrAllocTable st1 t1 (pdptIdx v) (PTE_WRITABLE ||| PTE_USER) with
  | none => rw [hg2] at hmap; cases hmap
  | some r2 =>
  obtain ⟨st2, t2⟩ := r2
  rw [hg2] at hmap
  simp only at hmap
  cases hg3 : getOrAllocTable st2 t2 (pdIdx v) (PTE_WRITABLE ||| PTE_USER) with
  | none => rw [hg3] at hmap; cases hmap
  | some r3 =>
  obtain ⟨st3, t3⟩ := r3
  rw [hg3] at hmap
  simp only [Prod.mk.injEq, true_and] at hmap
  rw [← hmap]
  clear hmap st'
  rcases getOrAllocTable_cases _ _ _ _ _ _ hg1 with
    ⟨hp1, hst1, ht1⟩ | ⟨fa, ra, hnp1, hfra, ht1, hm1, hq1⟩
  · -- level 1 present
    rw [hst1] at hg2
    have hgt1 : getTable st.mem root (pml4Idx v) = some t1 := by
      unfold getTable
      rw [if_pos hp1, ht1]
    rcases getOrAllocTable_cases _ _ _ _ _ _ hg2 with
      ⟨hp2, hst2, ht2⟩ | ⟨fa, ra, hnp2, hfra, ht2, hm2, hq2⟩
    · -- level 2 present
      rw [hst2] at hg3
      have hgt2 : getTable st.mem t1 (pdptIdx v) = some t2 := by
        unfold getTable
        rw [if_pos hp2, ht2]
      rcases getOrAllocTable_cases _ _ _ _ _ _ hg3 with
        ⟨hp3, hst3, ht3⟩ | ⟨fa, ra, hnp3, hfra, ht3, hm3, hq3⟩
      · -- case PPP: all levels present
        rw [hst3]
        have hgt3 : getTable st.mem t2 (pdIdx v) = some t3 := by
          unfold getTable
          rw [if_pos hp3, ht3]
        have hch : chain st root v = [root, t1, t2, t3] := by
          simp [chain, hgt1, hgt2, hgt3]
        rw [hch] at hpw
        rcases List.pairwise_append.mp hpw with ⟨pwc, -, -⟩
        have h03 : root ≠ t3 := List.rel_of_pairwise_cons pwc (by simp)
        have h13 : t1 ≠ t3 := List.rel_of_pairwise_cons pwc.of_cons (by simp)
        have h23 : t2 ≠ t3 := List.rel_of_pairwise_cons pwc.of_cons.of_cons (by simp)
        have e1 : ∀ b, writeEntry st.mem t3 (ptIdx v) ((p &&& PTE_ADDR_MASK) ||| flags |||
            PTE_PRESENT) root b = st.mem root b :=
          fun b => writeEntry_ne_frame _ _ _ _ _ _ h03
        have e2 : ∀ b, writeEntry st.mem t3 (ptIdx v) ((p &&& PTE_ADDR_MASK) ||| flags |||
            PTE_PRESENT) t1 b = st.mem t1 b :=
          fun b => writeEntry_ne_frame _ _ _ _ _ _ h13
        have e3 : ∀ b, writeEntry st.mem t3 (ptIdx v) ((p &&& PTE_ADDR_MASK) ||| flags |||
            PTE_PRESENT) t2 b = st.mem t2 b :=
          fun b => writeEntry_ne_frame _ _ _ _ _ _ h23
        have e4 := writeEntry_self st.mem t3 (ptIdx v)
          ((p &&& PTE_ADDR_MASK) ||| flags ||| PTE_PRESENT)
        have h3l := hlargeOk t1 t2 hgt1 hgt2 hp3
        constructor
        · exact translate_of_facts (writeEntry st.mem t3 (ptIdx v) ((p &&& PTE_ADDR_MASK) ||| flags ||| PTE_PRESENT)) root v t1 t2 t3 p flags hv hp hp52 hfl
            (by rw [e1]; exact hp1) (by rw [e1]; exact ht1.symm)
            (by rw [e2]; exact hp2) (by rw [e2]; exact ht2.symm)
            (by rw [e3]; exact hp3) (by rw [e3]; exact ht3.symm)
            (by rw [e3]; exact h3l) e4
        · exact unmap_translate_none (writeEntry st.mem t3 (ptIdx v) ((p &&& PTE_ADDR_MASK) ||| flags ||| PTE_PRESENT)) st.free root v t1 t2 t3
            (by rw [e1]; exact hp1) (by rw [e1]; exact ht1.symm)
            (by rw [e2]; exact hp2) (by rw [e2]; exact ht2.symm)
            (by rw [e3]; exact hp3) (by rw [e3]; exact ht3.symm)
            (by rw [e3]; exact h3l) h03 h13 h23
      · -- case PPA: PD entry freshly allocated
        obtain ⟨hfa1, hfa2⟩ := hfree fa (by simp [hfra])
        rw [fresh_entry_mask fa hfa1 hfa2] at ht3
        replace ht3 := ht3.symm
        subst ht3
        have hgt3n : getTable st.mem t2 (pdIdx v) = none := by
          unfold getTable
          rw [if_neg (by simp [hnp3])]
        have hch : chain st root v = [root, t1, t2] := by
          simp [chain, hgt1, hgt2, hgt3n]
        rw [hch] at hpw
        rcases List.pairwise_append.mp hpw with ⟨pwc, -, hcross⟩
        have hfamem : fa ∈ st.free.take 3 := by simp [hfra]
        have h0f : root ≠ fa := hcross root (by simp) fa hfamem
        have h1f : t1 ≠ fa := hcross t1 (by simp) fa hfamem
        have h2f : t2 ≠ fa := hcross t2 (by simp) fa hfamem
        have h12 : t1 ≠ t2 := List.rel_of_pairwise_cons pwc.of_cons (by simp)
        have h02 : root ≠ t2 := List.rel_of_pairwise_cons pwc (by simp)
        rw [hm3]
        have e1 : ∀ b, writeEntry (writeEntry (zeroFrame st.mem fa) t2 (pdIdx v)
            (fa ||| (PTE_WRITABLE ||| PTE_USER) ||| PTE_PRESENT)) fa (ptIdx v)
            ((p &&& PTE_ADDR_MASK) ||| flags ||| PTE_PRESENT) root b = st.mem root b := by
          intro b
          rw [writeEntry_ne_frame _ _ _ _ _ _ h0f, writeEntry_ne_frame _ _ _ _ _ _ h02,
            zeroFrame_ne _ _ _ _ h0f]
        have e2 : ∀ b, writeEntry (writeEntry (zeroFrame st.mem fa) t2 (pdIdx v)
            (fa ||| (PTE_WRITABLE ||| PTE_USER) ||| PTE_PRESENT)) fa (ptIdx v)
            ((p &&& PTE_ADDR_MASK) ||| flags ||| PTE_PRESENT) t1 b = st.mem t1 b := by
          intro b
          rw [writeEntry_ne_frame _ _ _ _ _ _ h1f, writeEntry_ne_frame _ _ _ _ _ _ h12,
            zeroFrame_ne _ _ _ _ h1f]
        have e3 : writeEntry (writeEntry (zeroFrame st.mem fa) t2 (pdIdx v)
            (fa ||| (PTE_WRITABLE ||| PTE_USER) ||| PTE_PRESENT)) fa (ptIdx v)
            ((p &&& PTE_ADDR_MASK) ||| flags ||| PTE_PRESENT) t2 (pdIdx v) =
            fa ||| (PTE_WRITABLE ||| PTE_USER) ||| PTE_PRESENT := by
          rw [writeEntry_ne_frame _ _ _ _ _ _ h2f, writeEntry_self]
        have e4 := writeEntry_self (writeEntry (zeroFrame st.mem fa) t2 (pdIdx v)
            (fa ||| (PTE_WRITABLE ||| PTE_USER) ||| PTE_PRESENT)) fa (ptIdx v)
          ((p &&& PTE_ADDR_MASK) ||| flags ||| PTE_PRESENT)
        constructor
        · exact translate_of_facts (writeEntry (writeEntry (zeroFrame st.mem fa) t2 (pdIdx v) (fa ||| (PTE_WRITABLE ||| PTE_USER) ||| PTE_PRESENT)) fa (ptIdx v) ((p &&& PTE_ADDR_MASK) ||| flags ||| PTE_PRESENT)) root v t1 t2 fa p flags hv hp hp52 hfl
            (by rw [e1]; exact hp1) (by rw [e1]; exact ht1.symm)
            (by rw [e2]; exact hp2) (by rw [e2]; exact ht2.symm)
            (by rw [e3]; exact lor_present _ _)
            (by rw [e3]; exact fresh_entry_mask fa hfa1 hfa2)
            (by rw [e3]; exact fresh_entry_no_large fa hfa1) e4
        · exact unmap_translate_none (writeEntry (writeEntry (zeroFrame st.mem fa) t2 (pdIdx v) (fa ||| (PTE_WRITABLE ||| PTE_USER) ||| PTE_PRESENT)) fa (ptIdx v) ((p &&& PTE_ADDR_MASK) ||| flags ||| PTE_PRESENT)) st3.free root v t1 t2 fa
            (by rw [e1]; exact hp1) (by rw [e1]; exact ht1.symm)
            (by rw [e2]; exact hp2) (by rw [e2]; exact ht2.symm)
            (by rw [e3]; exact lor_present _ _)
            (by rw [e3]; exact fresh_entry_mask fa hfa1 hfa2)
            (by rw [e3]; exact fresh_entry_no_large fa hfa1) h0f h1f h2f
    · -- level 2 freshly allocated
      obtain ⟨hfa1, hfa2⟩ := hfree fa (by simp [hfra])
      rw [fresh_entry_mask fa hfa1 hfa2] at ht2
      replace ht2 := ht2.symm
      subst ht2
      have hgt2n : getTable st.mem t1 (pdptIdx v) = none := by
        unfold getTable
        rw [if_neg (by simp [hnp2])]
      have hch : chain st root v = [root, t1] := by
        simp [chain, hgt1, hgt2n]
      rw [hch] at hpw
      rcases List.pairwise_append.mp hpw with ⟨pwc, pwf, hcross⟩
      have hfamem : fa ∈ st.free.take 3 := by simp [hfra]
      have h0fa : root ≠ fa := hcross root (by simp) fa hfamem
      have h1fa : t1 ≠ fa := hcross t1 (by simp) fa hfamem
      have h01 : root ≠ t1 := List.rel_of_pairwise_cons pwc (by simp)
      rcases getOrAllocTable_cases _ _ _ _ _ _ hg3 with
        ⟨hp3, hst3, ht3⟩ | ⟨fb, rb, hnp3, hfrb, ht3, hm3, hq3⟩
      · -- case PAP: impossible — the fresh PD table is zeroed
        exfalso
        rw [hm2] at hp3
        rw [writeEntry_ne_frame _ _ _ _ _ _ h1fa.symm, zeroFrame_self] at hp3
        simp at hp3
      · -- case PAA
        rw [hq2] at hfrb
        subst hfrb
        obtain ⟨hfb1, hfb2⟩ := hfree fb (by simp [hfra])
        rw [fresh_entry_mask fb hfb1 hfb2] at ht3
        replace ht3 := ht3.symm
        subst ht3
        have hfbmem : fb ∈ st.free.take 3 := by simp [hfra]
        have h0fb : root ≠ fb := hcross root (by simp) fb hfbmem
        have h1fb : t1 ≠ fb := hcross t1 (by simp) fb hfbmem
        have pwf' : (fa :: fb :: rb.take 1).Pairwise (· ≠ ·) := by
          simpa [hfra] using pwf
        have hfafb : fa ≠ fb := List.rel_of_pairwise_cons pwf' (by simp)
        rw [hm3, hm2]
        have e1 : ∀ b, writeEntry (writeEntry (zeroFrame (writeEntry (zeroFrame st.mem fa)
            t1 (pdptIdx v) (fa ||| (PTE_WRITABLE ||| PTE_USER) ||| PTE_PRESENT)) fb) fa
            (pdIdx v) (fb ||| (PTE_WRITABLE ||| PTE_USER) ||| PTE_PRESENT)) fb (ptIdx v)
            ((p &&& PTE_ADDR_MASK) ||| flags ||| PTE_PRESENT) root b = st.mem root b := by
          intro b
          rw [writeEntry_ne_frame _ _ _ _ _ _ h0fb, writeEntry_ne_frame _ _ _ _ _ _ h0fa,
            zeroFrame_ne _ _ _ _ h0fb, writeEntry_ne_frame _ _ _ _ _ _ h01,
            zeroFrame_ne _ _ _ _ h0fa]
        have e2 : writeEntry (writeEntry (zeroFrame (writeEntry (zeroFrame st.mem fa)
            t1 (pdptIdx v) (fa ||| (PTE_WRITABLE ||| PTE_USER) ||| PTE_PRESENT)) fb) fa
            (pdIdx v) (fb ||| (PTE_WRITABLE ||| PTE_USER) ||| PTE_PRESENT)) fb (ptIdx v)
            ((p &&& PTE_ADDR_MASK) ||| flags ||| PTE_PRESENT) t1 (pdptIdx v) =
            fa ||| (PTE_WRITABLE ||| PTE_USER) ||| PTE_PRESENT := by
          rw [writeEntry_ne_frame _ _ _ _ _ _ h1fb, writeEntry_ne_frame _ _ _ _ _ _ h1fa,
            zeroFrame_ne _ _ _ _ h1fb, writeEntry_self]
        have e3 : writeEntry (writeEntry (zeroFrame (writeEntry (zeroFrame st.mem fa)
            t1 (pdptIdx v) (fa ||| (PTE_WRITABLE ||| PTE_USER) ||| PTE_PRESENT)) fb) fa
            (pdIdx v) (fb ||| (PTE_WRITABLE ||| PTE_USER) ||| PTE_PRESENT)) fb (ptIdx v)
            ((p &&& PTE_ADDR_MASK) ||| flags ||| PTE_PRESENT) fa (pdIdx v) =
            fb ||| (PTE_WRITABLE ||| PTE_USER) ||| PTE_PRESENT := by
          rw [writeEntry_ne_frame _ _ _ _ _ _ hfafb, writeEntry_self]
        have e4 := writeEntry_self (writeEntry (zeroFrame (writeEntry (zeroFrame st.mem fa)
            t1 (pdptIdx v) (fa ||| (PTE_WRITABLE ||| PTE_USER) ||| PTE_PRESENT)) fb) fa
            (pdIdx v) (fb ||| (PTE_WRITABLE ||| PTE_USER) ||| PTE_PRESENT)) fb (ptIdx v)
          ((p &&& PTE_ADDR_MASK) ||| flags ||| PTE_PRESENT)
        constructor
        · exact translate_of_facts (writeEntry (writeEntry (zeroFrame (writeEntry (zeroFrame st.mem fa) t1 (pdptIdx v) (fa ||| (PTE_WRITABLE ||| PTE_USER) ||| PTE_PRESENT)) fb) fa (pdIdx v) (fb ||| (PTE_WRITABLE ||| PTE_USER) ||| PTE_PRESENT)) fb (ptIdx v) ((p &&& PTE_ADDR_MASK) ||| flags ||| PTE_PRESENT)) root v t1 fa fb p flags hv hp hp52 hfl
            (by rw [e1]; exact hp1) (by rw [e1]; exact ht1.symm)
            (by rw [e2]; exact lor_present _ _)
            (by rw [e2]; exact fresh_entry_mask fa hfa1 hfa2)
            (by rw [e3]; exact lor_present _ _)
            (by rw [e3]; exact fresh_entry_mask fb hfb1 hfb2)
            (by rw [e3]; exact fresh_entry_no_large fb hfb1) e4
        · exact unmap_translate_none (writeEntry (writeEntry (zeroFrame (writeEntry (zeroFrame st.mem fa) t1 (pdptIdx v) (fa ||| (PTE_WRITABLE ||| PTE_USER) ||| PTE_PRESENT)) fb) fa (pdIdx v) (fb ||| (PTE_WRITABLE ||| PTE_USER) ||| PTE_PRESENT)) fb (ptIdx v) ((p &&& PTE_ADDR_MASK) ||| flags ||| PTE_PRESENT)) st3.free root v t1 fa fb
            (by rw [e1]; exact hp1) (by rw [e1]; exact ht1.symm)
            (by rw [e2]; exact lor_present _ _)
            (by rw [e2]; exact fresh_entry_mask fa hfa1 hfa2)
            (by rw [e3]; exact lor_present _ _)
            (by rw [e3]; exact fresh_entry_mask fb hfb1 hfb2)
            (by rw [e3]; exact fresh_entry_no_large fb hfb1) h0fb h1fb hfafb
  · -- level 1 freshly allocated: levels 2 and 3 must also allocate
    obtain ⟨hfa1, hfa2⟩ := hfree fa (by simp [hfra])
    rw [fresh_entry_mask fa hfa1 hfa2] at ht1
    replace ht1 := ht1.symm
    subst ht1
    have hgt1n : getTable st.mem root (pml4Idx v) = none := by
      unfold getTable
      rw [if_neg (by simp [hnp1])]
    have hch : chain st root v = [root] := by
      simp [chain, hgt1n]
    rw [hch] at hpw
    rcases List.pairwise_append.mp hpw with ⟨-, pwf, hcross⟩
    have hfamem : fa ∈ st.free.take 3 := by simp [hfra]
    have h0fa : root ≠ fa := hcross root (by simp) fa hfamem
    rcases getOrAllocTable_cases _ _ _ _ _ _ hg2 with
      ⟨hp2, hst2, ht2⟩ | ⟨fb, rb, hnp2, hfrb, ht2, hm2, hq2⟩
    · -- impossible: the fresh PDPT is zeroed
      exfalso
      rw [hm1] at hp2
      rw [writeEntry_ne_frame _ _ _ _ _ _ h0fa.symm, zeroFrame_self] at hp2
      simp at hp2
    · rw [hq1] at hfrb
      subst hfrb
      obtain ⟨hfb1, hfb2⟩ := hfree fb (by simp [hfra])
      rw [fresh_entry_mask fb hfb1 hfb2] at ht2
      replace ht2 := ht2.symm
      subst ht2
      have hfbmem : fb ∈ st.free.take 3 := by simp [hfra]
      have h0fb : root ≠ fb := hcross root (by simp) fb hfbmem
      rcases getOrAllocTable_cases _ _ _ _ _ _ hg3 with
        ⟨hp3, hst3, ht3⟩ | ⟨fc, rc, hnp3, hfrc, ht3, hm3, hq3⟩
      · -- impossible: the fresh PD is zeroed
        exfalso
        have pwf' : (fa :: fb :: rb.take 1).Pairwise (· ≠ ·) := by
          simpa [hfra] using pwf
        have hfafb : fa ≠ fb := List.rel_of_pairwise_cons pwf' (by simp)
        rw [hm2, hm1] at hp3
        rw [writeEntry_ne_frame _ _ _ _ _ _ hfafb.symm, zeroFrame_self] at hp3
        simp at hp3
      · rw [hq2] at hfrc
        subst hfrc
        obtain ⟨hfc1, hfc2⟩ := hfree fc (by simp [hfra])
        rw [fresh_entry_mask fc hfc1 hfc2] at ht3
        replace ht3 := ht3.symm
        subst ht3
        have hfcmem : fc ∈ st.free.take 3 := by simp [hfra]
        have h0fc : root ≠ fc := hcross root (by simp) fc hfcmem
        have pwf' : (fa :: fb :: fc :: rc.take 0).Pairwise (· ≠ ·) := by
          simpa [hfra] using pwf
        have hfafb : fa ≠ fb := List.rel_of_pairwise_cons pwf' (by simp)
        have hfafc : fa ≠ fc := List.rel_of_pairwise_cons pwf' (by simp)
        have hfbfc : fb ≠ fc := List.rel_of_pairwise_cons pwf'.of_cons (by simp)
        rw [hm3, hm2, hm1]
        have e1 : writeEntry (writeEntry (zeroFrame (writeEntry (zeroFrame
            (writeEntry (zeroFrame st.mem fa) root (pml4Idx v)
              (fa ||| (PTE_WRITABLE ||| PTE_USER) ||| PTE_PRESENT)) fb) fa (pdptIdx v)
            (fb ||| (PTE_WRITABLE ||| PTE_USER) ||| PTE_PRESENT)) fc) fb (pdIdx v)
            (fc ||| (PTE_WRITABLE ||| PTE_USER) ||| PTE_PRESENT)) fc (ptIdx v)
            ((p &&& PTE_ADDR_MASK) ||| flags ||| PTE_PRESENT) root (pml4Idx v) =
            fa ||| (PTE_WRITABLE ||| PTE_USER) ||| PTE_PRESENT := by
          rw [writeEntry_ne_frame _ _ _ _ _ _ h0fc, writeEntry_ne_frame _ _ _ _ _ _ h0fb,
            zeroFrame_ne _ _ _ _ h0fc, writeEntry_ne_frame _ _ _ _ _ _ h0fa,
            zeroFrame_ne _ _ _ _ h0fb, writeEntry_self]
        have e2 : writeEntry (writeEntry (zeroFrame (writeEntry (zeroFrame
            (writeEntry (zeroFrame st.mem fa) root (pml4Idx v)
              (fa ||| (PTE_WRITABLE ||| PTE_USER) ||| PTE_PRESENT)) fb) fa (pdptIdx v)
            (fb ||| (PTE_WRITABLE ||| PTE_USER) ||| PTE_PRESENT)) fc) fb (pdIdx v)
            (fc ||| (PTE_WRITABLE ||| PTE_USER) ||| PTE_PRESENT)) fc (ptIdx v)
            ((p &&& PTE_ADDR_MASK) ||| flags ||| PTE_PRESENT) fa (pdptIdx v) =
            fb ||| (PTE_WRITABLE ||| PTE_USER) ||| PTE_PRESENT := by
          rw [writeEntry_ne_frame _ _ _ _ _ _ hfafc, writeEntry_ne_frame _ _ _ _ _ _ hfafb,
            zeroFrame_ne _ _ _ _ hfafc, writeEntry_self]
        have e3 : writeEntry (writeEntry (zeroFrame (writeEntry (zeroFrame
            (writeEntry (zeroFrame st.mem fa) root (pml4Idx v)
              (fa ||| (PTE_WRITABLE ||| PTE_USER) ||| PTE_PRESENT)) fb) fa (pdptIdx v)
            (fb ||| (PTE_WRITABLE ||| PTE_USER) ||| PTE_PRESENT)) fc) fb (pdIdx v)
            (fc ||| (PTE_WRITABLE ||| PTE_USER) ||| PTE_PRESENT)) fc (ptIdx v)
            ((p &&& PTE_ADDR_MASK) ||| flags ||| PTE_PRESENT) fb (pdIdx v) =
            fc ||| (PTE_WRITABLE ||| PTE_USER) ||| PTE_PRESENT := by
          rw [writeEntry_ne_frame _ _ _ _ _ _ hfbfc, writeEntry_self]
        have e4 := writeEntry_self (writeEntry (zeroFrame (writeEntry (zeroFrame
            (writeEntry (zeroFrame st.mem fa) root (pml4Idx v)
              (fa ||| (PTE_WRITABLE ||| PTE_USER) ||| PTE_PRESENT)) fb) fa (pdptIdx v)
            (fb ||| (PTE_WRITABLE ||| PTE_USER) ||| PTE_PRESENT)) fc) fb (pdIdx v)
            (fc ||| (PTE_WRITABLE ||| PTE_USER) ||| PTE_PRESENT)) fc (ptIdx v)
          ((p &&& PTE_ADDR_MASK) ||| flags ||| PTE_PRESENT)
        constructor
        · exact translate_of_facts (writeEntry (writeEntry (zeroFrame (writeEntry (zeroFrame (writeEntry (zeroFrame st.mem fa) root (pml4Idx v) (fa ||| (PTE_WRITABLE ||| PTE_USER) ||| PTE_PRESENT)) fb) fa (pdptIdx v) (fb ||| (PTE_WRITABLE ||| PTE_USER) ||| PTE_PRESENT)) fc) fb (pdIdx v) (fc ||| (PTE_WRITABLE ||| PTE_USER) ||| PTE_PRESENT)) fc (ptIdx v) ((p &&& PTE_ADDR_MASK) ||| flags ||| PTE_PRESENT)) root v fa fb fc p flags hv hp hp52 hfl
            (by rw [e1]; exact lor_present _ _)
            (by rw [e1]; exact fresh_entry_mask fa hfa1 hfa2)
            (by rw [e2]; exact lor_present _ _)
            (by rw [e2]; exact fresh_entry_mask fb hfb1 hfb2)
            (by rw [e3]; exact lor_present _ _)
            (by rw [e3]; exact fresh_entry_mask fc hfc1 hfc2)
            (by rw [e3]; exact fresh_entry_no_large fc hfc1) e4
        · exact unmap_translate_none (writeEntry (writeEntry (zeroFrame (writeEntry (zeroFrame (writeEntry (zeroFrame st.mem fa) root (pml4Idx v) (fa ||| (PTE_WRITABLE ||| PTE_USER) ||| PTE_PRESENT)) fb) fa (pdptIdx v) (fb ||| (PTE_WRITABLE ||| PTE_USER) ||| PTE_PRESENT)) fc) fb (pdIdx v) (fc ||| (PTE_WRITABLE ||| PTE_USER) ||| PTE_PRESENT)) fc (ptIdx v) ((p &&& PTE_ADDR_MASK) ||| flags ||| PTE_PRESENT)) st3.free root v fa fb fc
            (by rw [e1]; exact lor_present _ _)
            (by rw [e1]; exact fresh_entry_mask fa hfa1 hfa2)
            (by rw [e2]; exact lor_present _ _)
            (by rw [e2]; exact fresh_entry_mask fb hfb1 hfb2)
            (by rw [e3]; exact lor_present _ _)
            (by rw [e3]; exact fresh_entry_mask fc hfc1 hfc2)
            (by rw [e3]; exact fresh_entry_no_large fc hfc1) h0fc hfafc hfbfc

theorem c7_map_translate_roundtrip_witness :
    translatePage (mapPage (Machine.mk (fun _ _ => 0) [0x1000, 0x2000, 0x3000]) 0x5000
        0x400000 0x7000 (PTE_WRITABLE ||| PTE_USER)).2.mem 0x5000 0x400000 = some 0x7000 ∧
    translatePage (unmapPage (mapPage (Machine.mk (fun _ _ => 0) [0x1000, 0x2000, 0x3000])
        0x5000 0x400000 0x7000 (PTE_WRITABLE ||| PTE_USER)).2 0x5000 0x400000).mem
      0x5000 0x400000 = none :=
  c7_map_translate_roundtrip (Machine.mk (fun _ _ => 0) [0x1000, 0x2000, 0x3000])
    ((mapPage (Machine.mk (fun _ _ => 0) [0x1000, 0x2000, 0x3000]) 0x5000 0x400000 0x7000
      (PTE_WRITABLE ||| PTE_USER)).2)
    0x5000 0x400000 0x7000 (PTE_WRITABLE ||| PTE_USER)
    (by decide) (by decide) (by decide) (by decide)
    ⟨by decide, by decide, by
      intro t1 t2 h h2 h3
      simp [getTable, PTE_PRESENT] at h⟩
    rfl

/-! ## Buddy allocator (`src/mm/pmm.rs`)

The allocator keeps `MAX_ORDER + 1` LIFO free lists; `FreeList::push` is
cons, `pop` takes the head, `remove` deletes the first occurrence of an
address. -/

def MAX_ORDER : Nat := 12

structure Buddy where
  lists : Nat → List Nat

def Buddy.updList (b : Buddy) (o : Nat) (l : List Nat) : Buddy :=
  ⟨fun x => if x = o then l else b.lists x⟩

/-- The first non-empty list at order ≥ `o` (the `for o in order..=MAX_ORDER`
scan inside `alloc`), with the loop's remaining iteration count made an
explicit structural argument. -/
def Buddy.findOrderAux (b : Buddy) : Nat → Nat → Option Nat
  | _, 0 => none
  | o, fuel + 1 =>
    if o > MAX_ORDER then none
    else if b.lists o ≠ [] then some o
    else Buddy.findOrderAux b (o + 1) fuel

def Buddy.findOrder (b : Buddy) (o : Nat) : Option Nat :=
  Buddy.findOrderAux b o (MAX_ORDER + 1 - o)

/-- The split-down loop inside `alloc`: while the current order exceeds the
target, step down and push the upper buddy half `phys + (PAGE_SIZE <<
current)` onto the lower list. -/
def Buddy.splitDown (b : Buddy) (phys target : Nat) : Nat → Buddy
  | 0 => b
  | cur + 1 =>
    if cur + 1 ≤ target then b
    else Buddy.splitDown
      (b.updList cur ((phys + (PAGE_SIZE <<< cur)) :: b.lists cur)) phys target cur

/-- `BuddyAllocator::alloc(order)`: pop from the first non-empty list at
`order..=MAX_ORDER` and split back down to `order`. -/
def Buddy.alloc (b : Buddy) (order : Nat) : Option (Nat × Buddy) :=
  match Buddy.findOrder b order with
  | none => none
  | some fo =>
    match b.lists fo with
    | [] => none
    | phys :: rest => some (phys, Buddy.splitDown (b.updList fo rest) phys order fo)

/-- `BuddyAllocator::free(phys, order)`: while below `MAX_ORDER` and the
buddy (`phys ^ (PAGE_SIZE << order)`) sits on the current list, remove it
and coalesce upward at the minimum of the two addresses; finally push.
The loop's remaining iteration count (`MAX_ORDER - order`, unchanged by the
loop body since `order` increases with each merge) is an explicit structural
argument of the auxiliary. -/
def Buddy.freeAux : Nat → Buddy → Nat → Nat → Buddy
  | 0, b, phys, order => b.updList order (phys :: b.lists order)
  | fuel + 1, b, phys, order =>
    if order ≥ MAX_ORDER then b.updList order (phys :: b.lists order)
    else
      let buddy := phys ^^^ (PAGE_SIZE <<< order)
      if buddy ∈ b.lists order then
        Buddy.freeAux fuel (b.updList order ((b.lists order).erase buddy))
          (min phys buddy) (order + 1)
      else b.updList order (phys :: b.lists order)

def Buddy.free (b : Buddy) (phys order : Nat) : Buddy :=
  Buddy.freeAux (MAX_ORDER - order) b phys order

def Buddy.allocSeq (b : Buddy) : List Nat → Option (List Nat × Buddy)
  | [] => some ([], b)
  | k :: ks =>
    match Buddy.alloc b k with
    | none => none
    | some (x, b1) =>
      match Buddy.allocSeq b1 ks with
      | none => none
      | some (xs, b2) => some (x :: xs, b2)

def Buddy.freeSeq (b : Buddy) : List (Nat × Nat) → Buddy
  | [] => b
  | (x, k) :: rest => Buddy.freeSeq (Buddy.free b x k) rest

/-- The spec's free-list invariants (§3): every block on list `k` is
`2^k`-pages aligned, and buddy pairs are never both on a list (they are
coalesced on free). -/
def BuddyInv (b : Buddy) : Prop :=
  ∀ o, o ≤ MAX_ORDER →
    (∀ x ∈ b.lists o, x % (PAGE_SIZE <<< o) = 0) ∧
    (∀ x ∈ b.lists o, x ^^^ (PAGE_SIZE <<< o) ∉ b.lists o)

lemma shl_pow (o : Nat) : PAGE_SIZE <<< o = 2 ^ (12 + o) := by
  rw [Nat.shiftLeft_eq, pow_add]
  norm_num [PAGE_SIZE]

lemma xor_pow_eq_add (a s : Nat) (h : a % (2 ^ (s + 1)) = 0) :
    a ^^^ 2 ^ s = a + 2 ^ s := by
  obtain ⟨q, hq⟩ : 2 ^ (s + 1) ∣ a := Nat.dvd_of_mod_eq_zero h
  subst hq
  apply Nat.eq_of_testBit_eq
  intro j
  have hb : (2 : Nat) ^ s < 2 ^ (s + 1) := Nat.pow_lt_pow_right (by omega) (by omega)
  have h0 : (0 : Nat) < 2 ^ (s + 1) := Nat.pos_pow_of_pos _ (by omega)
  rw [Nat.testBit_xor, Nat.testBit_mul_pow_two_add q hb j]
  have hz : (2 ^ (s + 1) * q).testBit j =
      if j < s + 1 then false else q.testBit (j - (s + 1)) := by
    have := Nat.testBit_mul_pow_two_add q h0 j
    simpa using this
  rw [hz]
  by_cases hj : j < s + 1
  · simp [hj]
  · have hhi : (2 ^ s : Nat).testBit j = false :=
      Nat.testBit_lt_two_pow (Nat.pow_lt_pow_right (by omega) (by omega))
    simp [hj, hhi]

lemma findOrderAux_spec (b : Buddy) :
    ∀ n o fo, Buddy.findOrderAux b o n = some fo →
    o ≤ fo ∧ fo ≤ MAX_ORDER ∧ b.lists fo ≠ [] ∧
      ∀ m, o ≤ m → m < fo → b.lists m = [] := by
  intro n
  induction n with
  | zero =>
    intro o fo h
    simp only [Buddy.findOrderAux] at h
    cases h
  | succ n ih =>
    intro o fo h
    simp only [Buddy.findOrderAux] at h
    by_cases hgt : o > MAX_ORDER
    · rw [if_pos hgt] at h
      cases h
    · rw [if_neg hgt] at h
      by_cases hne : b.lists o ≠ []
      · rw [if_pos hne] at h
        cases h
        exact ⟨le_refl _, by omega, hne, fun m h1 h2 => by omega⟩
      · rw [if_neg hne] at h
        obtain ⟨h1, h2, h3, h4⟩ := ih (o + 1) fo h
        refine ⟨by omega, h2, h3, ?_⟩
        intro m hm1 hm2
        rcases Nat.eq_or_lt_of_le hm1 with he | hlt
        · rw [← he]
          push_neg at hne
          exact hne
        · exact h4 m hlt hm2

lemma findOrder_spec (b : Buddy) (o fo : Nat) (h : Buddy.findOrder b o = some fo) :
    o ≤ fo ∧ fo ≤ MAX_ORDER ∧ b.lists fo ≠ [] ∧
      ∀ m, o ≤ m → m < fo → b.lists m = [] :=
  findOrderAux_spec b _ o fo h

lemma splitDown_spec (phys target : Nat) :
    ∀ cur (b : Buddy), target ≤ cur →
    (∀ m, target ≤ m → m < cur → b.lists m = []) →
    (Buddy.splitDown b phys target cur).lists = fun o =>
      if target ≤ o ∧ o < cur then [phys + (PAGE_SIZE <<< o)] else b.lists o := by
  intro cur
  induction cur with
  | zero =>
    intro b ht he
    funext o
    simp [Buddy.splitDown]
  | succ cur ih =>
    intro b ht he
    unfold Buddy.splitDown
    by_cases hle : cur + 1 ≤ target
    · rw [if_pos hle]
      funext o
      rw [if_neg (by omega)]
    · rw [if_neg hle]
      have hcur : b.lists cur = [] := he cur (by omega) (by omega)
      rw [ih _ (by omega) ?_]
      · funext o
        by_cases ho : o = cur
        · subst ho
          rw [if_neg (by omega), if_pos (by omega)]
          simp [Buddy.updList, hcur]
        · by_cases hr : target ≤ o ∧ o < cur
          · rw [if_pos hr, if_pos (by omega)]
          · rw [if_neg hr, if_neg (by omega)]
            simp [Buddy.updList, ho]
      · intro m hm1 hm2
        have : m ≠ cur := by omega
        simp [Buddy.updList, this]
        exact he m hm1 (by omega)

lemma free_push (b : Buddy) (phys order : Nat)
    (hm : phys ^^^ (PAGE_SIZE <<< order) ∉ b.lists order) :
    Buddy.free b phys order = b.updList order (phys :: b.lists order) := by
  unfold Buddy.free
  by_cases h12 : order ≥ MAX_ORDER
  · have h0 : MAX_ORDER - order = 0 := by omega
    rw [h0]
    rfl
  · have h1 : MAX_ORDER - order = (MAX_ORDER - order - 1) + 1 := by omega
    rw [h1]
    simp only [Buddy.freeAux]
    rw [if_neg h12]
    rw [if_neg hm]

lemma free_step (b : Buddy) (phys order : Nat) (h12 : ¬ order ≥ MAX_ORDER)
    (hm : phys ^^^ (PAGE_SIZE <<< order) ∈ b.lists order) :
    Buddy.free b phys order =
      Buddy.free
        (b.updList order ((b.lists order).erase (phys ^^^ (PAGE_SIZE <<< order))))
        (min phys (phys ^^^ (PAGE_SIZE <<< order))) (order + 1) := by
  unfold Buddy.free
  have h1 : MAX_ORDER - order = (MAX_ORDER - (order + 1)) + 1 := by omega
  rw [h1]
  simp only [Buddy.freeAux]
  rw [if_neg h12]
  rw [if_pos hm]

lemma freeLoop_base (phys fo : Nat) (L : Nat → List Nat) (rest : List Nat)
    (hnb : phys ^^^ (PAGE_SIZE <<< fo) ∉ rest) :
    Buddy.free ⟨fun o => if fo ≤ o ∧ o < fo then [phys + (PAGE_SIZE <<< o)]
        else if o = fo then rest else L o⟩ phys fo =
      ⟨fun o => if o = fo then phys :: rest else L o⟩ := by
  have hS : (fun o => if fo ≤ o ∧ o < fo then [phys + (PAGE_SIZE <<< o)]
      else if o = fo then rest else L o) = fun o => if o = fo then rest else L o := by
    funext o
    rw [if_neg (by omega)]
  rw [hS]
  rw [free_push _ _ _ (by simpa using hnb)]
  simp only [Buddy.updList]
  apply congrArg Buddy.mk
  funext o
  by_cases ho : o = fo
  · subst ho
    simp
  · simp [ho]

lemma freeLoop_restores (phys fo : Nat) (L : Nat → List Nat) (rest : List Nat)
    (hfo : fo ≤ MAX_ORDER) (hal : phys % (PAGE_SIZE <<< fo) = 0)
    (hnb : phys ^^^ (PAGE_SIZE <<< fo) ∉ rest) :
    ∀ n ord, fo - ord ≤ n → ord ≤ fo →
    (∀ m, ord ≤ m → m < fo → L m = []) →
    Buddy.free ⟨fun o => if ord ≤ o ∧ o < fo then [phys + (PAGE_SIZE <<< o)]
        else if o = fo then rest else L o⟩ phys ord =
      ⟨fun o => if o = fo then phys :: rest else L o⟩ := by
  intro n
  induction n with
  | zero =>
    intro ord hn hord hemp
    have hoe : ord = fo := by omega
    subst hoe
    exact freeLoop_base phys ord L rest hnb
  | succ n ih =>
    intro ord hn hord hemp
    by_cases hoe : ord = fo
    · subst hoe
      exact freeLoop_base phys ord L rest hnb
    · have hlt : ord < fo := by omega
      have h12 : ¬ (ord ≥ MAX_ORDER) := by
        simp only [MAX_ORDER] at hfo ⊢
        omega
      have hphys : (2 : Nat) ^ (12 + fo) ∣ phys := by
        apply Nat.dvd_of_mod_eq_zero
        rw [← shl_pow]
        exact hal
      have hmod : phys % (2 ^ (12 + ord + 1)) = 0 := by
        obtain ⟨q, hq⟩ :=
          dvd_trans (pow_dvd_pow 2 (show 12 + ord + 1 ≤ 12 + fo by omega)) hphys
        rw [hq]
        exact Nat.mul_mod_right _ _
      have hbud : phys ^^^ (PAGE_SIZE <<< ord) = phys + (PAGE_SIZE <<< ord) := by
        rw [shl_pow]
        exact xor_pow_eq_add phys (12 + ord) hmod
      have hmem : phys ^^^ (PAGE_SIZE <<< ord) ∈
          (Buddy.mk (fun o => if ord ≤ o ∧ o < fo then [phys + (PAGE_SIZE <<< o)]
            else if o = fo then rest else L o)).lists ord := by
        simp [hbud, hlt]
      rw [free_step _ _ _ h12 hmem]
      have herase : (((Buddy.mk (fun o => if ord ≤ o ∧ o < fo then
            [phys + (PAGE_SIZE <<< o)] else if o = fo then rest else L o)).lists
            ord).erase (phys ^^^ (PAGE_SIZE <<< ord))) = [] := by
        simp [hbud, hlt]
      have hmin : min phys (phys ^^^ (PAGE_SIZE <<< ord)) = phys := by
        rw [hbud]
        exact Nat.min_eq_left (Nat.le_add_right _ _)
      rw [herase, hmin]
      have hupd : (Buddy.mk (fun o => if ord ≤ o ∧ o < fo then
            [phys + (PAGE_SIZE <<< o)] else if o = fo then rest else L o)).updList
            ord [] =
          Buddy.mk (fun o => if ord + 1 ≤ o ∧ o < fo then [phys + (PAGE_SIZE <<< o)]
            else if o = fo then rest else L o) := by
        simp only [Buddy.updList]
        apply congrArg Buddy.mk
        funext o
        by_cases ho : o = ord
        · subst ho
          rw [if_pos rfl, if_neg (show ¬ (o + 1 ≤ o ∧ o < fo) by omega),
            if_neg (show o ≠ fo by omega)]
          exact (hemp o (le_refl o) hlt).symm
        · rw [if_neg ho]
          by_cases hc : ord + 1 ≤ o ∧ o < fo
          · rw [if_pos (show ord ≤ o ∧ o < fo by omega), if_pos hc]
          · rw [if_neg (show ¬ (ord ≤ o ∧ o < fo) by omega), if_neg hc]
      rw [hupd]
      exact ih (ord + 1) (by omega) (by omega) (fun m hm1 hm2 => hemp m (by omega) hm2)

/-- Freeing an allocated block at its order restores the allocator state
exactly, and allocation preserves the free-list invariants. -/
lemma free_alloc (b : Buddy) (k phys : Nat) (b' : Buddy)
    (hinv : BuddyInv b) (h : Buddy.alloc b k = some (phys, b')) :
    Buddy.free b' phys k = b ∧ BuddyInv b' := by
  unfold Buddy.alloc at h
  cases hfo : Buddy.findOrder b k with
  | none =>
    simp only [hfo] at h
    cases h
  | some fo =>
    simp only [hfo] at h
    obtain ⟨hkfo, hfoM, hne, hmin⟩ := findOrder_spec b k fo hfo
    cases hl : b.lists fo with
    | nil => exact absurd hl hne
    | cons p rest =>
      simp only [hl, Option.some.injEq, Prod.mk.injEq] at h
      obtain ⟨hp, hb'⟩ := h
      replace hp := hp.symm
      subst hp
      subst hb'
      have hempty : ∀ m, k ≤ m → m < fo → (b.updList fo rest).lists m = [] := by
        intro m h1 h2
        have hmne : m ≠ fo := by omega
        simp only [Buddy.updList, if_neg hmne]
        exact hmin m h1 h2
      have hsplit := splitDown_spec phys k fo (b.updList fo rest) hkfo hempty
      have hb'eq : Buddy.splitDown (b.updList fo rest) phys k fo =
          ⟨fun o => if k ≤ o ∧ o < fo then [phys + (PAGE_SIZE <<< o)]
            else if o = fo then rest else b.lists o⟩ := by
        have he : (Buddy.splitDown (b.updList fo rest) phys k fo).lists =
            fun o => if k ≤ o ∧ o < fo then [phys + (PAGE_SIZE <<< o)]
              else if o = fo then rest else b.lists o := by
          rw [hsplit]
          rfl
        calc Buddy.splitDown (b.updList fo rest) phys k fo
            = ⟨(Buddy.splitDown (b.updList fo rest) phys k fo).lists⟩ := rfl
          _ = _ := congrArg Buddy.mk he
      obtain ⟨halL, hbfL⟩ := hinv fo hfoM
      have hpm : phys ∈ b.lists fo := by
        rw [hl]
        exact List.mem_cons_self _ _
      have halp : phys % (PAGE_SIZE <<< fo) = 0 := halL phys hpm
      have hnbp : phys ^^^ (PAGE_SIZE <<< fo) ∉ rest := by
        intro hmem
        exact hbfL phys hpm (by rw [hl]; exact List.mem_cons_of_mem _ hmem)
      refine ⟨?_, ?_⟩
      · rw [hb'eq]
        rw [freeLoop_restores phys fo b.lists rest hfoM halp hnbp fo k (by omega)
          hkfo hmin]
        have hLb : (fun o => if o = fo then phys :: rest else b.lists o) = b.lists := by
          funext o
          by_cases ho : o = fo
          · subst ho
            rw [if_pos rfl]
            exact hl.symm
          · rw [if_neg ho]
        rw [hLb]
      · rw [hb'eq]
        intro o hoM
        have hSo : (Buddy.mk (fun o => if k ≤ o ∧ o < fo then [phys + (PAGE_SIZE <<< o)]
            else if o = fo then rest else b.lists o)).lists o =
            if k ≤ o ∧ o < fo then [phys + (PAGE_SIZE <<< o)]
              else if o = fo then rest else b.lists o := rfl
        constructor
        · intro x hx
          rw [hSo] at hx
          by_cases hc : k ≤ o ∧ o < fo
          · rw [if_pos hc] at hx
            simp only [List.mem_singleton] at hx
            subst hx
            have hdvd : (2 : Nat) ^ (12 + o) ∣ phys := by
              refine dvd_trans (pow_dvd_pow 2 (show 12 + o ≤ 12 + fo by omega)) ?_
              apply Nat.dvd_of_mod_eq_zero
              rw [← shl_pow]
              exact halp
            rw [shl_pow]
            obtain ⟨q, hq⟩ := hdvd
            rw [hq, ← Nat.mul_succ]
            exact Nat.mul_mod_right _ _
          · rw [if_neg hc] at hx
            by_cases hof : o = fo
            · rw [if_pos hof] at hx
              subst hof
              exact halL x (by rw [hl]; exact List.mem_cons_of_mem _ hx)
            · rw [if_neg hof] at hx
              exact (hinv o hoM).1 x hx
        · intro x hx
          rw [hSo] at hx
          rw [hSo]
          by_cases hc : k ≤ o ∧ o < fo
          · rw [if_pos hc] at hx
            rw [if_pos hc]
            simp only [List.mem_singleton] at hx
            subst hx
            have hmodo : phys % (2 ^ (12 + o + 1)) = 0 := by
              obtain ⟨q, hq⟩ :=
                dvd_trans (pow_dvd_pow 2 (show 12 + o + 1 ≤ 12 + fo by omega))
                  (Nat.dvd_of_mod_eq_zero (by rw [← shl_pow]; exact halp))
              rw [hq]
              exact Nat.mul_mod_right _ _
            have hxor : phys ^^^ (PAGE_SIZE <<< o) = phys + (PAGE_SIZE <<< o) := by
              rw [shl_pow]
              exact xor_pow_eq_add phys (12 + o) hmodo
            rw [← hxor, Nat.xor_assoc, Nat.xor_self, Nat.xor_zero]
            simp only [List.mem_singleton]
            have hpos : 0 < PAGE_SIZE <<< o := by
              rw [shl_pow]
              positivity
            omega
          · rw [if_neg hc] at hx
            rw [if_neg hc]
            by_cases hof : o = fo
            · rw [if_pos hof] at hx
              rw [if_pos hof]
              subst hof
              intro hmem
              exact hbfL x (by rw [hl]; exact List.mem_cons_of_mem _ hx)
                (by rw [hl]; exact List.mem_cons_of_mem _ hmem)
            · rw [if_neg hof] at hx
              rw [if_neg hof]
              exact (hinv o hoM).2 x hx

lemma freeSeq_append (b : Buddy) (l1 l2 : List (Nat × Nat)) :
    Buddy.freeSeq b (l1 ++ l2) = Buddy.freeSeq (Buddy.freeSeq b l1) l2 := by
  induction l1 generalizing b with
  | nil => rfl
  | cons hd tl ih =>
    cases hd with
    | mk x k =>
      simp only [List.cons_append, Buddy.freeSeq]
      exact ih _

/-- Any sequence of allocations, freed in reverse order at the same orders,
returns the allocator to its exact initial state; the invariants persist. -/
lemma allocSeq_roundtrip (ks : List Nat) :
    ∀ b xs b', BuddyInv b → Buddy.allocSeq b ks = some (xs, b') →
    Buddy.freeSeq b' ((xs.zip ks).reverse) = b ∧ BuddyInv b' := by
  induction ks with
  | nil =>
    intro b xs b' hinv h
    simp only [Buddy.allocSeq, Option.some.injEq, Prod.mk.injEq] at h
    obtain ⟨h1, h2⟩ := h
    subst h1
    subst h2
    exact ⟨rfl, hinv⟩
  | cons k ks ih =>
    intro b xs b' hinv h
    cases ha : Buddy.alloc b k with
    | none =>
      simp only [Buddy.allocSeq, ha] at h
      cases h
    | some xb1 =>
      obtain ⟨x, b1⟩ := xb1
      simp only [Buddy.allocSeq, ha] at h
      cases hs : Buddy.allocSeq b1 ks with
      | none =>
        simp only [hs] at h
        cases h
      | some xsb2 =>
        obtain ⟨xs2, b2⟩ := xsb2
        simp only [hs, Option.some.injEq, Prod.mk.injEq] at h
        obtain ⟨hxs, hb2⟩ := h
        subst hxs
        subst hb2
        obtain ⟨hfr1, hinv1⟩ := free_alloc b k x b1 hinv ha
        obtain ⟨hfr2, hinv2⟩ := ih b1 xs2 b2 hinv1 hs
        refine ⟨?_, hinv2⟩
        simp only [List.zip_cons_cons, List.reverse_cons]
        rw [freeSeq_append, hfr2]
        simp only [Buddy.freeSeq]
        exact hfr1

/-- A concrete allocator state for exercising the buddy round-trip: one free
block of order 1 at `0x2000`. -/
def c8b0 : Buddy := ⟨fun o => if o = 1 then [0x2000] else []⟩

/-- The result of allocating two order-0 pages from `c8b0` (the first alloc
splits the order-1 block). -/
def c8res : List Nat × Buddy := (Buddy.allocSeq c8b0 [0, 0]).getD ([], c8b0)

/-- **C8**: starting from any state satisfying the free-list invariants
(blocks on list `k` are `PAGE_SIZE << k`-aligned and no two buddies are both
free), any successful sequence of `alloc(k_1), ..., alloc(k_n)` followed by
freeing the returned blocks at the same orders in reverse order restores the
allocator state exactly — in particular the multiset of free blocks on every
order's list returns to its initial value. Moreover `free(phys, k)` coalesces
with the buddy `phys ^^^ (PAGE_SIZE << k)` exactly when the buddy is on list
`k` and `k < MAX_ORDER`, removing it and recursing at the minimum address at
order `k + 1`, and otherwise pushes the block onto list `k`. -/
theorem c8_buddy_roundtrip (b : Buddy) (ks xs : List Nat) (b' : Buddy)
    (hinv : BuddyInv b) (halloc : Buddy.allocSeq b ks = some (xs, b')) :
    (Buddy.freeSeq b' ((xs.zip ks).reverse) = b ∧
      ∀ o, ((Buddy.freeSeq b' ((xs.zip ks).reverse)).lists o : Multiset Nat)
        = (b.lists o : Multiset Nat)) ∧
    (∀ (c : Buddy) (phys k : Nat), ¬ k ≥ MAX_ORDER →
      phys ^^^ (PAGE_SIZE <<< k) ∈ c.lists k →
      Buddy.free c phys k =
        Buddy.free (c.updList k ((c.lists k).erase (phys ^^^ (PAGE_SIZE <<< k))))
          (min phys (phys ^^^ (PAGE_SIZE <<< k))) (k + 1)) ∧
    (∀ (c : Buddy) (phys k : Nat), phys ^^^ (PAGE_SIZE <<< k) ∉ c.lists k →
      Buddy.free c phys k = c.updList k (phys :: c.lists k)) := by
  obtain ⟨hfr, -⟩ := allocSeq_roundtrip ks b xs b' hinv halloc
  exact ⟨⟨hfr, fun o => by rw [hfr]⟩,
    fun c phys k h12 hm => free_step c phys k h12 hm,
    fun c phys k hm => free_push c phys k hm⟩

/-- Witness for C8: the invariant holds of `c8b0`, two order-0 allocations
succeed (producing `0x2000` and `0x3000`), and the round-trip conclusion
holds at this instance. -/
theorem c8_buddy_roundtrip_witness :
    BuddyInv c8b0 ∧
    Buddy.allocSeq c8b0 [0, 0] = some (c8res.1, c8res.2) ∧
    ((Buddy.freeSeq c8res.2 ((c8res.1.zip [0, 0]).reverse) = c8b0 ∧
      ∀ o, ((Buddy.freeSeq c8res.2 ((c8res.1.zip [0, 0]).reverse)).lists o :
        Multiset Nat) = (c8b0.lists o : Multiset Nat)) ∧
    (∀ (c : Buddy) (phys k : Nat), ¬ k ≥ MAX_ORDER →
      phys ^^^ (PAGE_SIZE <<< k) ∈ c.lists k →
      Buddy.free c phys k =
        Buddy.free (c.updList k ((c.lists k).erase (phys ^^^ (PAGE_SIZE <<< k))))
          (min phys (phys ^^^ (PAGE_SIZE <<< k))) (k + 1)) ∧
    (∀ (c : Buddy) (phys k : Nat), phys ^^^ (PAGE_SIZE <<< k) ∉ c.lists k →
      Buddy.free c phys k = c.updList k (phys :: c.lists k))) := by
  have hinv : BuddyInv c8b0 := by
    intro o ho
    constructor
    · intro x hx
      by_cases h1 : o = 1
      · subst h1
        simp [c8b0] at hx
        subst hx
        decide
      · simp [c8b0, h1] at hx
    · intro x hx
      by_cases h1 : o = 1
      · subst h1
        simp [c8b0] at hx
        subst hx
        decide
      · simp [c8b0, h1] at hx
  have halloc : Buddy.allocSeq c8b0 [0, 0] = some (c8res.1, c8res.2) := rfl
  exact ⟨hinv, halloc, c8_buddy_roundtrip c8b0 [0, 0] c8res.1 c8res.2 hinv halloc⟩

/-! ## ELF loader (`src/proc/elf.rs`)

The input is a byte slice, modelled as a `List Nat`; `read_unaligned` of the
`repr(C)` header structs on a little-endian target is field-wise
little-endian extraction at the structs' fixed offsets. -/

def byteAt (data : List Nat) (i : Nat) : Nat := data.getD i 0

def read16 (data : List Nat) (i : Nat) : Nat :=
  byteAt data i + (byteAt data (i + 1)) <<< 8

def read32 (data : List Nat) (i : Nat) : Nat :=
  read16 data i + (read16 data (i + 2)) <<< 16

def read64 (data : List Nat) (i : Nat) : Nat :=
  read32 data i + (read32 data (i + 4)) <<< 32

def ELFCLASS64 : Nat := 2
def ELFDATA2LSB : Nat := 1
def ET_EXEC : Nat := 2
def ET_DYN : Nat := 3
def EM_X86_64 : Nat := 62
def PT_LOAD : Nat := 1
def PT_INTERP : Nat := 3
def PT_PHDR : Nat := 6
def PF_X : Nat := 1
def PF_W : Nat := 2
def PF_R : Nat := 4

inductive ElfErrorM where
  | TooSmall
  | BadMagic
  | NotElf64
  | NotLittleEndian
  | BadVersion
  | NotExecutable
  | WrongArch
  | BadPhdr
  | OutOfBounds
  | MappingFailed
  | AllocFailed
  deriving DecidableEq

/-- `Elf64Ehdr`, as read (unaligned, little-endian) from the first 64 bytes. -/
structure Elf64EhdrM where
  ident : List Nat
  etype : Nat
  machine : Nat
  version : Nat
  entry : Nat
  phoff : Nat
  shoff : Nat
  eflags : Nat
  ehsize : Nat
  phentsize : Nat
  phnum : Nat
  shentsize : Nat
  shnum : Nat
  shstrndx : Nat
  deriving DecidableEq

/-- `Elf64Phdr` (56 bytes), as read from offset `off`. -/
structure Elf64PhdrM where
  ptype : Nat
  pflags : Nat
  poffset : Nat
  pvaddr : Nat
  paddr : Nat
  pfilesz : Nat
  pmemsz : Nat
  palign : Nat
  deriving DecidableEq

/-- `parse_ehdr`: length check then `read_unaligned`. -/
def parseEhdr (data : List Nat) : Except ElfErrorM Elf64EhdrM :=
  if data.length < 64 then .error .TooSmall
  else .ok
    { ident := data.take 16, etype := read16 data 16, machine := read16 data 18,
      version := read32 data 20, entry := read64 data 24, phoff := read64 data 32,
      shoff := read64 data 40, eflags := read32 data 48, ehsize := read16 data 52,
      phentsize := read16 data 54, phnum := read16 data 56, shentsize := read16 data 58,
      shnum := read16 data 60, shstrndx := read16 data 62 }

def parsePhdr (data : List Nat) (off : Nat) : Elf64PhdrM :=
  { ptype := read32 data off
    pflags := read32 data (off + 4)
    poffset := read64 data (off + 8)
    pvaddr := read64 data (off + 16)
    paddr := read64 data (off + 24)
    pfilesz := read64 data (off + 32)
    pmemsz := read64 data (off + 40)
    palign := read64 data (off + 48) }

/-- The `for i in 0..phnum` loop of `parse_phdrs`; the `checked_mul` /
`checked_add` on `usize` fail exactly when the sum reaches `2^64`. -/
def parsePhdrsLoop (data : List Nat) (phoff phentsize : Nat) :
    Nat → Nat → Except ElfErrorM (List Elf64PhdrM)
  | _, 0 => .ok []
  | i, n + 1 =>
    if U64MOD ≤ i * phentsize then .error .BadPhdr
    else if U64MOD ≤ phoff + i * phentsize then .error .BadPhdr
    else if U64MOD ≤ phoff + i * phentsize + phentsize then .error .BadPhdr
    else if data.length < phoff + i * phentsize + phentsize then .error .OutOfBounds
    else
      match parsePhdrsLoop data phoff phentsize (i + 1) n with
      | .error e => .error e
      | .ok rest => .ok (parsePhdr data (phoff + i * phentsize) :: rest)

def parsePhdrs (data : List Nat) (phoff phnum phentsize : Nat) :
    Except ElfErrorM (List Elf64PhdrM) :=
  if phentsize ≠ 56 then .error .BadPhdr
  else parsePhdrsLoop data phoff phentsize 0 phnum

/-- The loader's view of the mutable `AddressSpace` / `VmSpace` / PMM state:
a flat page → frame map (C7 proves the 4-level walk realises `map` /
`translate`), a fresh-frame counter for `alloc_zeroed_frame` (modelled as
always succeeding), the `add_vma` calls made, and `vm.brk`. -/
structure LoadState where
  table : List (Nat × Nat)
  nextFrame : Nat
  vmas : List (Nat × Nat × Nat)
  brk : Nat
  deriving DecidableEq

def lsTranslate (st : LoadState) (v : Nat) : Option Nat :=
  match st.table.find? (fun e => e.1 == alignDown4k v) with
  | none => none
  | some e => some (e.2 + v % PAGE_SIZE)

def lsMap (st : LoadState) (page : Nat) : LoadState :=
  { table := (page, st.nextFrame * PAGE_SIZE) :: st.table,
    nextFrame := st.nextFrame + 1, vmas := st.vmas, brk := st.brk }

/-- The first pass over the program headers: PT_LOAD validation (skipped
entirely when `p_memsz == 0`) accumulating `load_min` / `load_max`, PT_PHDR
recording `phdr_vaddr`, PT_INTERP bounds-checking and recording the
interpreter path. -/
def elfPass1 (data : List Nat) (slide : Nat) :
    List Elf64PhdrM → Nat × Nat × Nat × Option (List Nat) →
    Except ElfErrorM (Nat × Nat × Nat × Option (List Nat))
  | [], st => .ok st
  | ph :: rest, (lmin, lmax, pv, ip) =>
    if ph.ptype = PT_LOAD then
      if ph.pmemsz = 0 then elfPass1 data slide rest (lmin, lmax, pv, ip)
      else if ph.pmemsz < ph.pfilesz then .error .BadPhdr
      else if ph.palign ≠ 0 ∧ ph.palign &&& (ph.palign - 1) ≠ 0 then .error .BadPhdr
      else if 1 < ph.palign ∧
          ph.pvaddr &&& (ph.palign - 1) ≠ ph.poffset &&& (ph.palign - 1) then
        .error .BadPhdr
      else if U64MOD ≤ ph.pvaddr + ph.pmemsz then .error .BadPhdr
      else if U64MOD ≤ ph.poffset + ph.pfilesz then .error .OutOfBounds
      else if data.length < ph.poffset + ph.pfilesz then .error .OutOfBounds
      else elfPass1 data slide rest
        (min lmin ph.pvaddr, max lmax (ph.pvaddr + ph.pmemsz), pv, ip)
    else if ph.ptype = PT_PHDR then
      if U64MOD ≤ ph.pvaddr + slide then .error .BadPhdr
      else elfPass1 data slide rest (lmin, lmax, ph.pvaddr + slide, ip)
    else if ph.ptype = PT_INTERP then
      if U64MOD ≤ ph.poffset + ph.pfilesz then .error .OutOfBounds
      else if data.length < ph.poffset + ph.pfilesz ∨ ph.pfilesz = 0 then
        .error .OutOfBounds
      else elfPass1 data slide rest
        (lmin, lmax, pv, some ((data.drop ph.poffset).take ph.pfilesz))
    else elfPass1 data slide rest (lmin, lmax, pv, ip)

/-- The `while page < page_end` demand-mapping loop; the page count is the
structural fuel (`page_vaddr` and `page_end` are page-aligned, so it is
exact whenever the loop is entered). -/
def elfMapPages : Nat → LoadState → Nat → Nat → Except ElfErrorM LoadState
  | 0, st, page, pageEnd =>
    if page < pageEnd then .error .MappingFailed else .ok st
  | fuel + 1, st, page, pageEnd =>
    if page < pageEnd then
      let st' := if (lsTranslate st page).isNone then lsMap st page else st
      if U64MOD ≤ page + PAGE_SIZE then .error .MappingFailed
      else elfMapPages fuel st' (page + PAGE_SIZE) pageEnd
    else .ok st

/-- The `while copied < src.len()` copy loop: per-page-chunk translation of
the destination; the byte store through the HHDM alias does not affect the
loader's result and is not modelled. Each chunk copies at least one byte,
so `srcLen` is structural fuel. -/
def elfCopyLoop (st : LoadState) (segVaddr srcLen : Nat) :
    Nat → Nat → Except ElfErrorM Unit
  | 0, copied => if copied < srcLen then .error .MappingFailed else .ok ()
  | fuel + 1, copied =>
    if copied < srcLen then
      if U64MOD ≤ segVaddr + copied then .error .MappingFailed
      else
        match lsTranslate st (segVaddr + copied) with
        | none => .error .MappingFailed
        | some _ =>
          elfCopyLoop st segVaddr srcLen fuel
            (copied + min (srcLen - copied) (PAGE_SIZE - (segVaddr + copied) % PAGE_SIZE))
    else .ok ()

/-- The second pass: map and populate each PT_LOAD segment with
`p_memsz != 0` (demand-map the page range, `add_vma`, copy the file bytes). -/
def elfPass2 (data : List Nat) (slide : Nat) :
    List Elf64PhdrM → LoadState → Except ElfErrorM LoadState
  | [], st => .ok st
  | ph :: rest, st =>
    if ph.ptype ≠ PT_LOAD ∨ ph.pmemsz = 0 then elfPass2 data slide rest st
    else if U64MOD ≤ ph.pvaddr + slide then .error .BadPhdr
    else if U64MOD ≤ ph.pvaddr + slide + ph.pmemsz then .error .BadPhdr
    else
      let segVaddr := ph.pvaddr + slide
      let pageVaddr := alignDown4k segVaddr
      let pageEnd := alignUp4k (segVaddr + ph.pmemsz)
      let vmaFlags := (if ph.pflags &&& PF_R ≠ 0 then VMA_READ else 0) |||
        (if ph.pflags &&& PF_W ≠ 0 then VMA_WRITE else 0) |||
        (if ph.pflags &&& PF_X ≠ 0 then VMA_EXEC else 0)
      match elfMapPages ((pageEnd - pageVaddr) / PAGE_SIZE) st pageVaddr pageEnd with
      | .error e => .error e
      | .ok st1 =>
        let st2 : LoadState :=
          { table := st1.table, nextFrame := st1.nextFrame,
            vmas := (pageVaddr, pageEnd, vmaFlags) :: st1.vmas, brk := st1.brk }
        if ph.pfilesz = 0 then elfPass2 data slide rest st2
        else if U64MOD ≤ ph.poffset + ph.pfilesz then .error .OutOfBounds
        else if data.length < ph.poffset + ph.pfilesz then .error .OutOfBounds
        else
          match elfCopyLoop st2 segVaddr ph.pfilesz ph.pfilesz 0 with
          | .error e => .error e
          | .ok _ => elfPass2 data slide rest st2

/-- The `phdr_vaddr` fallback scan: find the first PT_LOAD with
`p_filesz != 0` whose file extent contains the program-header table. -/
def elfPass3 (slide phoff phBytes : Nat) : List Elf64PhdrM → Except ElfErrorM Nat
  | [] => .ok 0
  | ph :: rest =>
    if ph.ptype ≠ PT_LOAD ∨ ph.pfilesz = 0 then elfPass3 slide phoff phBytes rest
    else if U64MOD ≤ ph.poffset + ph.pfilesz then .error .BadPhdr
    else if U64MOD ≤ phoff + phBytes then .error .BadPhdr
    else if ph.poffset ≤ phoff ∧ phoff + phBytes ≤ ph.poffset + ph.pfilesz then
      if U64MOD ≤ ph.pvaddr + slide then .error .BadPhdr
      else if U64MOD ≤ ph.pvaddr + slide + (phoff - ph.poffset) then .error .BadPhdr
      else .ok (ph.pvaddr + slide + (phoff - ph.poffset))
    else elfPass3 slide phoff phBytes rest

structure LoadedElfM where
  entry : Nat
  brk : Nat
  phdrVaddr : Nat
  phnum : Nat
  phent : Nat
  loadBase : Nat
  interp : Option (List Nat)
  deriving DecidableEq

/-- `load_elf(data, addr_space, vm, pie_base)` over the modelled state. -/
def loadElf (data : List Nat) (s0 : LoadState) (pieBase : Nat) :
    Except ElfErrorM (LoadedElfM × LoadState) :=
  match parseEhdr data with
  | .error e => .error e
  | .ok ehdr =>
    if ehdr.ident.take 4 ≠ [0x7F, 0x45, 0x4C, 0x46] then .error .BadMagic
    else if ehdr.ident.getD 4 0 ≠ ELFCLASS64 then .error .NotElf64
    else if ehdr.ident.getD 5 0 ≠ ELFDATA2LSB then .error .NotLittleEndian
    else if ehdr.ident.getD 6 0 ≠ 1 ∨ ehdr.version ≠ 1 then .error .BadVersion
    else if ehdr.etype ≠ ET_EXEC ∧ ehdr.etype ≠ ET_DYN then .error .NotExecutable
    else if ehdr.machine ≠ EM_X86_64 then .error .WrongArch
    else if ehdr.phentsize ≠ 56 then .error .BadPhdr
    else if U64MOD ≤ ehdr.phnum * ehdr.phentsize then .error .BadPhdr
    else if U64MOD ≤ ehdr.phoff + ehdr.phnum * ehdr.phentsize then .error .BadPhdr
    else if data.length < ehdr.phoff + ehdr.phnum * ehdr.phentsize then
      .error .OutOfBounds
    else
      match parsePhdrs data ehdr.phoff ehdr.phnum ehdr.phentsize with
      | .error e => .error e
      | .ok phdrs =>
        let slide := if ehdr.etype = ET_DYN then pieBase else 0
        match elfPass1 data slide phdrs (U64MOD - 1, 0, 0, none) with
        | .error e => .error e
        | .ok (lmin, lmax, phdrVaddr0, interp) =>
          if lmin = U64MOD - 1 then .error .BadPhdr
          else
            match elfPass2 data slide phdrs s0 with
            | .error e => .error e
            | .ok st2 =>
              match (if phdrVaddr0 = 0 ∧ ehdr.phoff ≠ 0 then
                  (if U64MOD ≤ ehdr.phnum * ehdr.phentsize then .error .BadPhdr
                   else elfPass3 slide ehdr.phoff (ehdr.phnum * ehdr.phentsize) phdrs)
                else .ok phdrVaddr0) with
              | .error e => .error e
              | .ok phdrVaddr =>
                if U64MOD ≤ ehdr.entry + slide then .error .BadPhdr
                else if U64MOD ≤ lmax + slide then .error .BadPhdr
                else
                  .ok
                    ({ entry := ehdr.entry + slide,
                       brk := alignUp4k (lmax + slide),
                       phdrVaddr := phdrVaddr, phnum := ehdr.phnum,
                       phent := ehdr.phentsize,
                       loadBase := if ehdr.etype = ET_DYN then pieBase else 0,
                       interp := interp },
                     { table := st2.table, nextFrame := st2.nextFrame,
                       vmas := st2.vmas, brk := alignUp4k (lmax + slide) })

/-- Little-endian byte splittings for building concrete ELF images. -/
def le2 (v : Nat) : List Nat := [v % 256, v / 256 % 256]

def le4 (v : Nat) : List Nat := le2 v ++ le2 (v / 65536)

def le8 (v : Nat) : List Nat := le4 v ++ le4 (v / 4294967296)

/-- A 176-byte ELF image (64-byte header + two 56-byte program headers):
a valid x86_64 ET_EXEC header; program header A is a PT_LOAD with
`memsz = 0` but `filesz = 1 > memsz` and file extent `[200, 201)` beyond the
176-byte input; program header B is a PT_LOAD at
`vaddr = 0xFFFFFFFFFFFFF000` with `memsz = 0xFFF`, whose end is
`0xFFFFFFFFFFFFFFFF`, so `align_up` of the load maximum wraps to 0. -/
def c6data : List Nat :=
  ([0x7F, 0x45, 0x4C, 0x46, 2, 1, 1, 0, 0, 0, 0, 0, 0, 0, 0, 0] ++
    le2 2 ++ le2 62 ++ le4 1 ++ le8 0x400000 ++ le8 64 ++ le8 0 ++
    le4 0 ++ le2 64 ++ le2 56 ++ le2 2 ++ le2 0 ++ le2 0 ++ le2 0) ++
  (le4 1 ++ le4 0 ++ le8 200 ++ le8 0 ++ le8 0 ++ le8 1 ++ le8 0 ++ le8 0) ++
  (le4 1 ++ le4 4 ++ le8 0 ++ le8 0xFFFFFFFFFFFFF000 ++ le8 0 ++ le8 0 ++
    le8 0xFFF ++ le8 0x1000)

def c6state0 : LoadState := { table := [], nextFrame := 0, vmas := [], brk := 0 }

/-- A 136-byte well-formed ELF image: valid x86_64 ET_EXEC header, one
PT_LOAD (offset 120, vaddr 0x400000, filesz = memsz = 16, align 0) whose
16 payload bytes sit at the end of the image. -/
def c6good : List Nat :=
  ([0x7F, 0x45, 0x4C, 0x46, 2, 1, 1, 0, 0, 0, 0, 0, 0, 0, 0, 0] ++
    le2 2 ++ le2 62 ++ le4 1 ++ le8 0x400000 ++ le8 64 ++ le8 0 ++
    le4 0 ++ le2 64 ++ le2 56 ++ le2 1 ++ le2 0 ++ le2 0 ++ le2 0) ++
  (le4 1 ++ le4 5 ++ le8 120 ++ le8 0x400000 ++ le8 0 ++ le8 16 ++ le8 16 ++ le8 0) ++
  [0x90, 0x90, 0x90, 0x90, 0x90, 0x90, 0x90, 0x90,
   0x90, 0x90, 0x90, 0x90, 0x90, 0x90, 0x90, 0xC3]

/-- `load_max` as accumulated by the validation pass: the maximum
`p_vaddr + p_memsz` over PT_LOAD headers with `p_memsz != 0`. -/
def elfLoadMaxFrom : List Elf64PhdrM → Nat → Nat
  | [], acc => acc
  | ph :: rest, acc =>
    elfLoadMaxFrom rest
      (if ph.ptype = PT_LOAD ∧ ph.pmemsz ≠ 0 then max acc (ph.pvaddr + ph.pmemsz) else acc)

def elfLoadMax (phs : List Elf64PhdrM) : Nat := elfLoadMaxFrom phs 0

/-- The error kinds produced by the sequential header checks of `load_elf`. -/
def elfErrKinds : Prop :=
  (∀ (d : List Nat) (s0 : LoadState) (pb : Nat), d.length < 64 →
    loadElf d s0 pb = .error ElfErrorM.TooSmall) ∧
  (∀ (d : List Nat) (s0 : LoadState) (pb : Nat) (e : Elf64EhdrM),
    parseEhdr d = .ok e →
    (e.ident.take 4 ≠ [0x7F, 0x45, 0x4C, 0x46] →
      loadElf d s0 pb = .error ElfErrorM.BadMagic) ∧
    (e.ident.take 4 = [0x7F, 0x45, 0x4C, 0x46] → e.ident.getD 4 0 ≠ ELFCLASS64 →
      loadElf d s0 pb = .error ElfErrorM.NotElf64) ∧
    (e.ident.take 4 = [0x7F, 0x45, 0x4C, 0x46] → e.ident.getD 4 0 = ELFCLASS64 →
      e.ident.getD 5 0 ≠ ELFDATA2LSB →
      loadElf d s0 pb = .error ElfErrorM.NotLittleEndian) ∧
    (e.ident.take 4 = [0x7F, 0x45, 0x4C, 0x46] → e.ident.getD 4 0 = ELFCLASS64 →
      e.ident.getD 5 0 = ELFDATA2LSB → (e.ident.getD 6 0 ≠ 1 ∨ e.version ≠ 1) →
      loadElf d s0 pb = .error ElfErrorM.BadVersion) ∧
    (e.ident.take 4 = [0x7F, 0x45, 0x4C, 0x46] → e.ident.getD 4 0 = ELFCLASS64 →
      e.ident.getD 5 0 = ELFDATA2LSB → e.ident.getD 6 0 = 1 → e.version = 1 →
      e.etype ≠ ET_EXEC → e.etype ≠ ET_DYN →
      loadElf d s0 pb = .error ElfErrorM.NotExecutable) ∧
    (e.ident.take 4 = [0x7F, 0x45, 0x4C, 0x46] → e.ident.getD 4 0 = ELFCLASS64 →
      e.ident.getD 5 0 = ELFDATA2LSB → e.ident.getD 6 0 = 1 → e.version = 1 →
      (e.etype = ET_EXEC ∨ e.etype = ET_DYN) → e.machine ≠ EM_X86_64 →
      loadElf d s0 pb = .error ElfErrorM.WrongArch) ∧
    (e.ident.take 4 = [0x7F, 0x45, 0x4C, 0x46] → e.ident.getD 4 0 = ELFCLASS64 →
      e.ident.getD 5 0 = ELFDATA2LSB → e.ident.getD 6 0 = 1 → e.version = 1 →
      (e.etype = ET_EXEC ∨ e.etype = ET_DYN) → e.machine = EM_X86_64 →
      e.phentsize ≠ 56 →
      loadElf d s0 pb = .error ElfErrorM.BadPhdr))

lemma elfErrKinds_holds : elfErrKinds := by
  constructor
  · intro d s0 pb hlen
    unfold loadElf parseEhdr
    rw [if_pos hlen]
  · intro d s0 pb e hpe
    refine ⟨?_, ?_, ?_, ?_, ?_, ?_, ?_⟩
    · intro hm
      simp only [loadElf, hpe]
      rw [if_pos hm]
    · intro h1 h2
      simp only [loadElf, hpe]
      rw [if_neg (not_not_intro h1), if_pos h2]
    · intro h1 h2 h3
      simp only [loadElf, hpe]
      rw [if_neg (not_not_intro h1), if_neg (not_not_intro h2), if_pos h3]
    · intro h1 h2 h3 h4
      simp only [loadElf, hpe]
      rw [if_neg (not_not_intro h1), if_neg (not_not_intro h2),
        if_neg (not_not_intro h3), if_pos h4]
    · intro h1 h2 h3 h4 h5 h6 h7
      simp only [loadElf, hpe]
      rw [if_neg (not_not_intro h1), if_neg (not_not_intro h2),
        if_neg (not_not_intro h3), if_neg (by push_neg; exact ⟨h4, h5⟩), if_pos ⟨h6, h7⟩]
    · intro h1 h2 h3 h4 h5 h6 h7
      simp only [loadElf, hpe]
      rw [if_neg (not_not_intro h1), if_neg (not_not_intro h2),
        if_neg (not_not_intro h3), if_neg (by push_neg; exact ⟨h4, h5⟩),
        if_neg (by rcases h6 with h | h <;> simp [h]), if_pos h7]
    · intro h1 h2 h3 h4 h5 h6 h7 h8
      simp only [loadElf, hpe]
      rw [if_neg (not_not_intro h1), if_neg (not_not_intro h2),
        if_neg (not_not_intro h3), if_neg (by push_neg; exact ⟨h4, h5⟩),
        if_neg (by rcases h6 with h | h <;> simp [h]), if_neg (not_not_intro h7),
        if_pos h8]

lemma alignUp4k_eq (x : Nat) :
    alignUp4k x = 4096 * (((x + 4095) % U64MOD) / 4096) := by
  have hylt : (x + 4095) % U64MOD < 2 ^ 64 := Nat.mod_lt _ (by norm_num [U64MOD])
  unfold alignUp4k
  set y := (x + 4095) % U64MOD
  have hmask : U64MOD - 4096 = (2 ^ 64 - 1) ^^^ (2 ^ 12 - 1) := by decide
  have hshl : 4096 * (y / 4096) = (y >>> 12) <<< 12 := by
    rw [Nat.shiftLeft_eq, Nat.shiftRight_eq_div_pow]
    norm_num
    ring
  rw [hmask, hshl]
  apply Nat.eq_of_testBit_eq
  intro j
  rw [Nat.testBit_land, Nat.testBit_xor, Nat.testBit_two_pow_sub_one,
    Nat.testBit_two_pow_sub_one, Nat.testBit_shiftLeft, Nat.testBit_shiftRight]
  by_cases h1 : j < 12
  · simp [h1, show j < 64 by omega]
  · by_cases h2 : j < 64
    · have hj : 12 + (j - 12) = j := by omega
      simp [h1, h2, hj, show 12 ≤ j by omega]
    · have hy0 : y.testBit j = false :=
        Nat.testBit_lt_two_pow
          (lt_of_lt_of_le hylt (Nat.pow_le_pow_right (by omega) (by omega)))
      have hj : 12 + (j - 12) = j := by omega
      simp [h1, h2, hj, hy0, show 12 ≤ j by omega]

lemma alignUp4k_mod (x : Nat) : alignUp4k x % PAGE_SIZE = 0 := by
  rw [alignUp4k_eq]
  simp [PAGE_SIZE, Nat.mul_mod_right]

lemma alignUp4k_ge (x : Nat) (h : x + 4095 < U64MOD) : x ≤ alignUp4k x := by
  rw [alignUp4k_eq, Nat.mod_eq_of_lt h]
  have hdm := Nat.div_add_mod (x + 4095) 4096
  have hm : (x + 4095) % 4096 < 4096 := Nat.mod_lt _ (by norm_num)
  omega

/-- What a successful validation pass guarantees: every PT_LOAD header with
nonzero `p_memsz` passed its checks, and `load_max` is the running maximum
of the segment ends. -/
lemma elfPass1_ok (data : List Nat) (slide : Nat) :
    ∀ (phs : List Elf64PhdrM) lmin lmax pv ip out,
    elfPass1 data slide phs (lmin, lmax, pv, ip) = .ok out →
    (∀ ph ∈ phs, ph.ptype = PT_LOAD → ph.pmemsz ≠ 0 →
      ph.pfilesz ≤ ph.pmemsz ∧
      (ph.palign ≠ 0 → ph.palign &&& (ph.palign - 1) = 0) ∧
      (1 < ph.palign → ph.pvaddr &&& (ph.palign - 1) = ph.poffset &&& (ph.palign - 1)) ∧
      ph.pvaddr + ph.pmemsz < U64MOD ∧
      ph.poffset + ph.pfilesz ≤ data.length) ∧
    out.2.1 = elfLoadMaxFrom phs lmax := by
  intro phs
  induction phs with
  | nil =>
    intro lmin lmax pv ip out h
    simp only [elfPass1, Except.ok.injEq] at h
    subst h
    exact ⟨fun ph hm => absurd hm (List.not_mem_nil ph), rfl⟩
  | cons ph rest ih =>
    intro lmin lmax pv ip out h
    simp only [elfPass1] at h
    by_cases hty : ph.ptype = PT_LOAD
    · rw [if_pos hty] at h
      by_cases hmz : ph.pmemsz = 0
      · rw [if_pos hmz] at h
        obtain ⟨hrest, hmax⟩ := ih lmin lmax pv ip out h
        refine ⟨?_, ?_⟩
        · intro q hq hqty hqmz
          rcases List.mem_cons.mp hq with he | hm
          · subst he
            exact absurd hmz hqmz
          · exact hrest q hm hqty hqmz
        · rw [hmax]
          simp only [elfLoadMaxFrom]
          rw [if_neg (by intro hc; exact hc.2 hmz)]
      · rw [if_neg hmz] at h
        by_cases h1 : ph.pmemsz < ph.pfilesz
        · rw [if_pos h1] at h
          exact Except.noConfusion h
        · rw [if_neg h1] at h
          by_cases h2 : ph.palign ≠ 0 ∧ ph.palign &&& (ph.palign - 1) ≠ 0
          · rw [if_pos h2] at h
            exact Except.noConfusion h
          · rw [if_neg h2] at h
            by_cases h3 : 1 < ph.palign ∧
                ph.pvaddr &&& (ph.palign - 1) ≠ ph.poffset &&& (ph.palign - 1)
            · rw [if_pos h3] at h
              exact Except.noConfusion h
            · rw [if_neg h3] at h
              by_cases h4 : U64MOD ≤ ph.pvaddr + ph.pmemsz
              · rw [if_pos h4] at h
                exact Except.noConfusion h
              · rw [if_neg h4] at h
                by_cases h5 : U64MOD ≤ ph.poffset + ph.pfilesz
                · rw [if_pos h5] at h
                  exact Except.noConfusion h
                · rw [if_neg h5] at h
                  by_cases h6 : data.length < ph.poffset + ph.pfilesz
                  · rw [if_pos h6] at h
                    exact Except.noConfusion h
                  · rw [if_neg h6] at h
                    obtain ⟨hrest, hmax⟩ :=
                      ih (min lmin ph.pvaddr) (max lmax (ph.pvaddr + ph.pmemsz)) pv ip out h
                    refine ⟨?_, ?_⟩
                    · intro q hq hqty hqmz
                      rcases List.mem_cons.mp hq with he | hm
                      · subst he
                        refine ⟨by omega, ?_, ?_, by omega, by omega⟩
                        · intro ha
                          by_contra hc
                          exact h2 ⟨ha, hc⟩
                        · intro ha
                          by_contra hc
                          exact h3 ⟨ha, hc⟩
                      · exact hrest q hm hqty hqmz
                    · rw [hmax]
                      simp only [elfLoadMaxFrom]
                      rw [if_pos ⟨hty, hmz⟩]
    · rw [if_neg hty] at h
      have hskip : ∀ st', elfPass1 data slide rest st' = .ok out →
          (∀ ph ∈ rest, ph.ptype = PT_LOAD → ph.pmemsz ≠ 0 →
            ph.pfilesz ≤ ph.pmemsz ∧
            (ph.palign ≠ 0 → ph.palign &&& (ph.palign - 1) = 0) ∧
            (1 < ph.palign →
              ph.pvaddr &&& (ph.palign - 1) = ph.poffset &&& (ph.palign - 1)) ∧
            ph.pvaddr + ph.pmemsz < U64MOD ∧
            ph.poffset + ph.pfilesz ≤ data.length) ∧
          out.2.1 = elfLoadMaxFrom rest st'.2.1 := by
        intro st' h'
        obtain ⟨a, b, c, d⟩ := st'
        exact ih a b c d out h'
      have hconc : ∀ lmax', out.2.1 = elfLoadMaxFrom rest lmax' →
          (∀ q ∈ ph :: rest, q.ptype = PT_LOAD → q.pmemsz ≠ 0 →
            q.pfilesz ≤ q.pmemsz ∧
            (q.palign ≠ 0 → q.palign &&& (q.palign - 1) = 0) ∧
            (1 < q.palign →
              q.pvaddr &&& (q.palign - 1) = q.poffset &&& (q.palign - 1)) ∧
            q.pvaddr + q.pmemsz < U64MOD ∧
            q.poffset + q.pfilesz ≤ data.length) → lmax' = lmax →
          (∀ q ∈ ph :: rest, q.ptype = PT_LOAD → q.pmemsz ≠ 0 →
            q.pfilesz ≤ q.pmemsz ∧
            (q.palign ≠ 0 → q.palign &&& (q.palign - 1) = 0) ∧
            (1 < q.palign →
              q.pvaddr &&& (q.palign - 1) = q.poffset &&& (q.palign - 1)) ∧
            q.pvaddr + q.pmemsz < U64MOD ∧
            q.poffset + q.pfilesz ≤ data.length) ∧
          out.2.1 = elfLoadMaxFrom (ph :: rest) lmax := by
        intro lmax' hmax hall heq
        refine ⟨hall, ?_⟩
        simp only [elfLoadMaxFrom]
        rw [if_neg (by intro hc; exact hty hc.1), ← heq]
        exact hmax
      by_cases hph : ph.ptype = PT_PHDR
      · rw [if_pos hph] at h
        by_cases hp1 : U64MOD ≤ ph.pvaddr + slide
        · rw [if_pos hp1] at h
          exact Except.noConfusion h
        · rw [if_neg hp1] at h
          obtain ⟨hrest, hmax⟩ := hskip _ h
          refine hconc lmax hmax ?_ rfl
          intro q hq hqty hqmz
          rcases List.mem_cons.mp hq with he | hm
          · subst he
            exact absurd hqty hty
          · exact hrest q hm hqty hqmz
      · rw [if_neg hph] at h
        by_cases hin : ph.ptype = PT_INTERP
        · rw [if_pos hin] at h
          by_cases hi1 : U64MOD ≤ ph.poffset + ph.pfilesz
          · rw [if_pos hi1] at h
            exact Except.noConfusion h
          · rw [if_neg hi1] at h
            by_cases hi2 : data.length < ph.poffset + ph.pfilesz ∨ ph.pfilesz = 0
            · rw [if_pos hi2] at h
              exact Except.noConfusion h
            · rw [if_neg hi2] at h
              obtain ⟨hrest, hmax⟩ := hskip _ h
              refine hconc lmax hmax ?_ rfl
              intro q hq hqty hqmz
              rcases List.mem_cons.mp hq with he | hm
              · subst he
                exact absurd hqty hty
              · exact hrest q hm hqty hqmz
        · rw [if_neg hin] at h
          obtain ⟨hrest, hmax⟩ := hskip _ h
          refine hconc lmax hmax ?_ rfl
          intro q hq hqty hqmz
          rcases List.mem_cons.mp hq with he | hm
          · subst he
            exact absurd hqty hty
          · exact hrest q hm hqty hqmz

set_option maxRecDepth 100000 in
/-- **C6 counterexample**: `c6data` is a 176-byte image whose first PT_LOAD
header has `filesz = 1 > memsz = 0` and file extent `[200, 201)` outside the
input — violating the claim's "for every PT_LOAD segment" conditions — yet
`load_elf` accepts it (the `p_memsz == 0` `continue` skips all
per-segment validation), and the accepted `brk` is 0: the second PT_LOAD
ends at `0xFFFFFFFFFFFFFFFF`, so `align_up(load_max + slide)` wraps, and
`brk` is not ≥ the maximum mapped virtual address plus the slide. -/
theorem c6_validation_skip_counterexample :
    ((parsePhdr c6data 64).ptype = PT_LOAD ∧
      (parsePhdr c6data 64).pmemsz = 0 ∧
      ¬ (parsePhdr c6data 64).pfilesz ≤ (parsePhdr c6data 64).pmemsz ∧
      ¬ (parsePhdr c6data 64).poffset + (parsePhdr c6data 64).pfilesz ≤
          c6data.length) ∧
    (parsePhdr c6data 120).pvaddr + (parsePhdr c6data 120).pmemsz = U64MOD - 1 ∧
    (∃ r st, loadElf c6data c6state0 0 = .ok (r, st) ∧ r.brk = 0 ∧
      r.brk < (parsePhdr c6data 120).pvaddr + (parsePhdr c6data 120).pmemsz) := by
  refine ⟨by decide, by decide, ?_⟩
  exact ⟨_, _, rfl, rfl, by decide⟩

/-- **C6** (amended): whenever `load_elf` accepts, the ELF header passed
every sequential check, the program-header table lies within the input, and
every PT_LOAD header **with nonzero `p_memsz`** satisfies
`filesz ≤ memsz`, power-of-two alignment, the `vaddr ≡ offset (mod align)`
congruence, a non-overflowing end, and an in-bounds file extent; the
returned `brk` is `align_up(load_max + slide)`, which is page-aligned, and
is ≥ `load_max + slide` whenever that aligned sum does not wrap at `2^64`;
and each header violation yields its error kind (`elfErrKinds`). -/
theorem c6_elf_loader (data : List Nat) (s0 : LoadState) (pieBase : Nat)
    (r : LoadedElfM) (st : LoadState)
    (h : loadElf data s0 pieBase = .ok (r, st)) :
    (∃ e, parseEhdr data = .ok e ∧
      e.ident.take 4 = [0x7F, 0x45, 0x4C, 0x46] ∧
      e.ident.getD 4 0 = ELFCLASS64 ∧
      e.ident.getD 5 0 = ELFDATA2LSB ∧
      e.ident.getD 6 0 = 1 ∧ e.version = 1 ∧
      (e.etype = ET_EXEC ∨ e.etype = ET_DYN) ∧
      e.machine = EM_X86_64 ∧
      e.phentsize = 56 ∧
      e.phoff + e.phnum * 56 ≤ data.length ∧
      ∃ phs, parsePhdrs data e.phoff e.phnum e.phentsize = .ok phs ∧
        (∀ ph ∈ phs, ph.ptype = PT_LOAD → ph.pmemsz ≠ 0 →
          ph.pfilesz ≤ ph.pmemsz ∧
          (ph.palign ≠ 0 → ph.palign &&& (ph.palign - 1) = 0) ∧
          (1 < ph.palign →
            ph.pvaddr &&& (ph.palign - 1) = ph.poffset &&& (ph.palign - 1)) ∧
          ph.pvaddr + ph.pmemsz < U64MOD ∧
          ph.poffset + ph.pfilesz ≤ data.length) ∧
        r.brk = alignUp4k (elfLoadMax phs + (if e.etype = ET_DYN then pieBase else 0)) ∧
        r.brk % PAGE_SIZE = 0 ∧
        (elfLoadMax phs + (if e.etype = ET_DYN then pieBase else 0) + 4095 < U64MOD →
          elfLoadMax phs + (if e.etype = ET_DYN then pieBase else 0) ≤ r.brk)) ∧
    elfErrKinds := by
  refine ⟨?_, elfErrKinds_holds⟩
  cases hpe : parseEhdr data with
  | error e0 =>
    simp only [loadElf, hpe] at h
    exact Except.noConfusion h
  | ok e =>
    simp only [loadElf, hpe] at h
    by_cases g1 : e.ident.take 4 ≠ [0x7F, 0x45, 0x4C, 0x46]
    · rw [if_pos g1] at h
      exact Except.noConfusion h
    · rw [if_neg g1] at h
      push_neg at g1
      by_cases g2 : e.ident.getD 4 0 ≠ ELFCLASS64
      · rw [if_pos g2] at h
        exact Except.noConfusion h
      · rw [if_neg g2] at h
        push_neg at g2
        by_cases g3 : e.ident.getD 5 0 ≠ ELFDATA2LSB
        · rw [if_pos g3] at h
          exact Except.noConfusion h
        · rw [if_neg g3] at h
          push_neg at g3
          by_cases g4 : e.ident.getD 6 0 ≠ 1 ∨ e.version ≠ 1
          · rw [if_pos g4] at h
            exact Except.noConfusion h
          · rw [if_neg g4] at h
            push_neg at g4
            obtain ⟨g4a, g4b⟩ := g4
            by_cases g5 : e.etype ≠ ET_EXEC ∧ e.etype ≠ ET_DYN
            · rw [if_pos g5] at h
              exact Except.noConfusion h
            · rw [if_neg g5] at h
              have g5' : e.etype = ET_EXEC ∨ e.etype = ET_DYN := by
                by_contra hc
                push_neg at hc
                exact g5 hc
              by_cases g6 : e.machine ≠ EM_X86_64
              · rw [if_pos g6] at h
                exact Except.noConfusion h
              · rw [if_neg g6] at h
                push_neg at g6
                by_cases g7 : e.phentsize ≠ 56
                · rw [if_pos g7] at h
                  exact Except.noConfusion h
                · rw [if_neg g7] at h
                  push_neg at g7
                  by_cases g8 : U64MOD ≤ e.phnum * e.phentsize
                  · rw [if_pos g8] at h
                    exact Except.noConfusion h
                  · rw [if_neg g8] at h
                    by_cases g9 : U64MOD ≤ e.phoff + e.phnum * e.phentsize
                    · rw [if_pos g9] at h
                      exact Except.noConfusion h
                    · rw [if_neg g9] at h
                      by_cases g10 : data.length < e.phoff + e.phnum * e.phentsize
                      · rw [if_pos g10] at h
                        exact Except.noConfusion h
                      · rw [if_neg g10] at h
                        cases hpp : parsePhdrs data e.phoff e.phnum e.phentsize with
                        | error e0 =>
                          simp only [hpp] at h
                          exact Except.noConfusion h
                        | ok phs =>
                          simp only [hpp] at h
                          cases hp1 : elfPass1 data
                              (if e.etype = ET_DYN then pieBase else 0) phs
                              (U64MOD - 1, 0, 0, none) with
                          | error e0 =>
                            simp only [hp1] at h
                            exact Except.noConfusion h
                          | ok quad =>
                            obtain ⟨lmin, lmax, pv0, ip⟩ := quad
                            simp only [hp1] at h
                            by_cases hlm : lmin = U64MOD - 1
                            · rw [if_pos hlm] at h
                              exact Except.noConfusion h
                            · rw [if_neg hlm] at h
                              cases hp2 : elfPass2 data
                                  (if e.etype = ET_DYN then pieBase else 0) phs s0 with
                              | error e0 =>
                                simp only [hp2] at h
                                exact Except.noConfusion h
                              | ok st2 =>
                                simp only [hp2] at h
                                cases hp3 : (if pv0 = 0 ∧ e.phoff ≠ 0 then
                                    (if U64MOD ≤ e.phnum * e.phentsize then
                                      Except.error ElfErrorM.BadPhdr
                                     else elfPass3
                                      (if e.etype = ET_DYN then pieBase else 0)
                                      e.phoff (e.phnum * e.phentsize) phs)
                                  else .ok pv0) with
                                | error e0 =>
                                  simp only [hp3] at h
                                  exact Except.noConfusion h
                                | ok pv =>
                                  simp only [hp3] at h
                                  by_cases ge1 : U64MOD ≤ e.entry +
                                      (if e.etype = ET_DYN then pieBase else 0)
                                  · rw [if_pos ge1] at h
                                    exact Except.noConfusion h
                                  · rw [if_neg ge1] at h
                                    by_cases ge2 : U64MOD ≤ lmax +
                                        (if e.etype = ET_DYN then pieBase else 0)
                                    · rw [if_pos ge2] at h
                                      exact Except.noConfusion h
                                    · rw [if_neg ge2] at h
                                      simp only [Except.ok.injEq, Prod.mk.injEq] at h
                                      obtain ⟨hr, hst⟩ := h
                                      subst hr
                                      obtain ⟨hall, hlmax⟩ :=
                                        elfPass1_ok data
                                          (if e.etype = ET_DYN then pieBase else 0)
                                          phs (U64MOD - 1) 0 0 none
                                          (lmin, lmax, pv0, ip) hp1
                                      have hlm2 : lmax = elfLoadMax phs := hlmax
                                      refine ⟨e, rfl, g1, g2, g3, g4a, g4b, g5', g6, g7,
                                        ?_, phs, hpp, hall, ?_, ?_, ?_⟩
                                      · rw [← g7]
                                        omega
                                      · rw [← hlm2]
                                      · exact alignUp4k_mod _
                                      · intro hw
                                        rw [← hlm2] at hw ⊢
                                        exact alignUp4k_ge _ hw

/-- The accepted result of loading the well-formed image `c6good`. -/
def c6goodRes : LoadedElfM × LoadState :=
  (loadElf c6good c6state0 0).toOption.getD
    ({ entry := 0, brk := 0, phdrVaddr := 0, phnum := 0, phent := 0,
       loadBase := 0, interp := none }, c6state0)

set_option maxRecDepth 100000 in
/-- Witness for C6: the 136-byte image `c6good` is accepted, and the amended
theorem's conclusion holds of its result. -/
theorem c6_elf_loader_witness :
    loadElf c6good c6state0 0 = .ok (c6goodRes.1, c6goodRes.2) ∧
    ((∃ e, parseEhdr c6good = .ok e ∧
      e.ident.take 4 = [0x7F, 0x45, 0x4C, 0x46] ∧
      e.ident.getD 4 0 = ELFCLASS64 ∧
      e.ident.getD 5 0 = ELFDATA2LSB ∧
      e.ident.getD 6 0 = 1 ∧ e.version = 1 ∧
      (e.etype = ET_EXEC ∨ e.etype = ET_DYN) ∧
      e.machine = EM_X86_64 ∧
      e.phentsize = 56 ∧
      e.phoff + e.phnum * 56 ≤ c6good.length ∧
      ∃ phs, parsePhdrs c6good e.phoff e.phnum e.phentsize = .ok phs ∧
        (∀ ph ∈ phs, ph.ptype = PT_LOAD → ph.pmemsz ≠ 0 →
          ph.pfilesz ≤ ph.pmemsz ∧
          (ph.palign ≠ 0 → ph.palign &&& (ph.palign - 1) = 0) ∧
          (1 < ph.palign →
            ph.pvaddr &&& (ph.palign - 1) = ph.poffset &&& (ph.palign - 1)) ∧
          ph.pvaddr + ph.pmemsz < U64MOD ∧
          ph.poffset + ph.pfilesz ≤ c6good.length) ∧
        c6goodRes.1.brk =
          alignUp4k (elfLoadMax phs + (if e.etype = ET_DYN then 0 else 0)) ∧
        c6goodRes.1.brk % PAGE_SIZE = 0 ∧
        (elfLoadMax phs + (if e.etype = ET_DYN then 0 else 0) + 4095 < U64MOD →
          elfLoadMax phs + (if e.etype = ET_DYN then 0 else 0) ≤ c6goodRes.1.brk)) ∧
    elfErrKinds) := by
  have h : loadElf c6good c6state0 0 = .ok (c6goodRes.1, c6goodRes.2) := rfl
  exact ⟨h, c6_elf_loader c6good c6state0 0 c6goodRes.1 c6goodRes.2 h⟩

end SarOS

